import Mathlib

/-!
Shallow embedding of the qs-texas-holdem engine (src/game/card.py,
hand_evaluator.py, player.py, pot.py, game_engine.py) and verification of
the frozen claims about it.

Modelling conventions:
* Python `int` is embedded as `Int`; Python floor division `//` and `%`
  (always used with positive divisors here) are `Int.ediv` / `Int.emod`.
* Python lists are `List`; `list.sort` / `sorted` are `List.insertionSort`
  (a stable sort, like Python's).
* Python dicts keyed by `Player` objects are association lists keyed by the
  player's name (the engine enforces distinct names), preserving insertion
  order where it can matter.
* A Python function that raises is embedded with an `Option` result
  (`none` = exception).
-/

namespace Holdem

/-! ### Card model (src/game/card.py) -/

inductive Suit
  | hearts | diamonds | clubs | spades
deriving DecidableEq, Repr

inductive Rank
  | two | three | four | five | six | seven | eight | nine | ten
  | jack | queen | king | ace
deriving DecidableEq, Repr

/-- `Rank.value` from card.py (2..14, ace = 14). -/
def Rank.val : Rank → Nat
  | .two => 2 | .three => 3 | .four => 4 | .five => 5 | .six => 6
  | .seven => 7 | .eight => 8 | .nine => 9 | .ten => 10
  | .jack => 11 | .queen => 12 | .king => 13 | .ace => 14

structure Card where
  suit : Suit
  rank : Rank
deriving DecidableEq, Repr

/-! ### Hand evaluator (src/game/hand_evaluator.py) -/

/-- `HandRank` enum (numeric value grows with strength). -/
inductive HandRank
  | highCard | onePair | twoPair | threeOfAKind | straight | flush
  | fullHouse | fourOfAKind | straightFlush | royalFlush
deriving DecidableEq, Repr

/-- `HandRank.value`. -/
def HandRank.val : HandRank → Nat
  | .highCard => 1 | .onePair => 2 | .twoPair => 3 | .threeOfAKind => 4
  | .straight => 5 | .flush => 6 | .fullHouse => 7 | .fourOfAKind => 8
  | .straightFlush => 9 | .royalFlush => 10

/-- `HandResult` (the `description` string is omitted; comparison and
equality in the source never read it). -/
structure HandResult where
  handRank : HandRank
  pcards : List Card
  values : List Nat
deriving DecidableEq, Repr

/-- The value-list comparison loop of `HandResult.__lt__`: Python
`zip` truncates at the shorter list and the loop falls through to
`False` when no strict difference is found. -/
def lexZipLt : List Nat → List Nat → Bool
  | a :: as_, b :: bs => if a ≠ b then decide (a < b) else lexZipLt as_ bs
  | _, _ => false

/-- `HandResult.__lt__`: category value first, then the tie-break values. -/
def ltHR (x y : HandResult) : Bool :=
  if x.handRank.val ≠ y.handRank.val then decide (x.handRank.val < y.handRank.val)
  else lexZipLt x.values y.values

/-- `HandResult.__eq__`: category and tie-break values (cards ignored). -/
def eqHR (x y : HandResult) : Bool :=
  x.handRank == y.handRank && x.values == y.values

/-- `sorted(cards, key=lambda x: x.rank.value, reverse=True)`. -/
def sortedDesc (cards : List Card) : List Card :=
  List.insertionSort (fun a b => b.rank.val ≤ a.rank.val) cards

/-- `sorted([card.rank.value for card in cards])`. -/
def ranksAsc (cards : List Card) : List Nat :=
  List.insertionSort (fun a b => a ≤ b) (cards.map (fun c => c.rank.val))

/-- `HandEvaluator._is_flush`: `len(set(suits)) == 1`. -/
def isFlush : List Card → Bool
  | [] => false
  | c :: rest => rest.all (fun d => d.suit == c.suit)

/-- Straight test on the ascending rank list: a contiguous run of 5, or the
wheel {2,3,4,5,14}.  (`ranks == list(range(ranks[0], ranks[0]+5))`.) -/
def isStraightRanks : List Nat → Bool
  | [a, b, c, d, e] =>
      (b == a + 1 && c == a + 2 && d == a + 3 && e == a + 4) ||
      (a == 2 && b == 3 && c == 4 && d == 5 && e == 14)
  | _ => false

/-- `HandEvaluator._is_straight`. -/
def isStraight (cards : List Card) : Bool :=
  isStraightRanks (ranksAsc cards)

/-- `HandEvaluator._is_royal_flush`. -/
def isRoyalFlush (cards : List Card) : Bool :=
  isFlush cards && (ranksAsc cards == [10, 11, 12, 13, 14])

/-- `HandEvaluator._is_straight_flush`. -/
def isStraightFlush (cards : List Card) : Bool :=
  isFlush cards && isStraight cards

/-- `HandEvaluator._get_straight_high_card`: 5 for the wheel, else the
largest rank. -/
def getStraightHighCard (cards : List Card) : Nat :=
  let r := ranksAsc cards
  if r == [2, 3, 4, 5, 14] then 5 else r.getLastD 0

/-- Rank values in order of first occurrence, skipping already-seen ones. -/
def firstOccsAux (seen : List Nat) : List Nat → List Nat
  | [] => []
  | a :: t => if a ∈ seen then firstOccsAux seen t else a :: firstOccsAux (a :: seen) t

/-- Rank values in order of first occurrence (the key order of a Python
`Counter` built from the list). -/
def firstOccs (l : List Nat) : List Nat := firstOccsAux [] l

/-- `Counter(card.rank.value for card in cards)` as an ordered list of
(rank value, multiplicity) pairs. -/
def rankCounts (cards : List Card) : List (Nat × Nat) :=
  let rs := cards.map (fun c => c.rank.val)
  (firstOccs rs).map (fun r => (r, rs.count r))

/-- `HandEvaluator._check_four_of_a_kind`.  The kicker lookup `[...][0]`
cannot fail on a 5-card input with a 4-count; the impossible case is
embedded as `none`. -/
def checkFourOfAKind (cards : List Card) : Option HandResult :=
  let rc := rankCounts cards
  match rc.find? (fun e => e.2 == 4) with
  | none => none
  | some e =>
    match rc.find? (fun e2 => e2.2 == 1) with
    | none => none
    | some k => some ⟨.fourOfAKind, cards, [e.1, k.1]⟩

/-- `HandEvaluator._check_full_house`: the loop keeps the last rank with
count 3 and the last with count 2. -/
def checkFullHouse (cards : List Card) : Option HandResult :=
  let rc := rankCounts cards
  match (rc.filter (fun e => e.2 == 3)).getLast?,
        (rc.filter (fun e => e.2 == 2)).getLast? with
  | some t, some p => some ⟨.fullHouse, cards, [t.1, p.1]⟩
  | _, _ => none

/-- `HandEvaluator._check_three_of_a_kind`. -/
def checkThreeOfAKind (cards : List Card) : Option HandResult :=
  let rc := rankCounts cards
  match rc.find? (fun e => e.2 == 3) with
  | none => none
  | some e =>
    let kickers := List.insertionSort (fun a b => b ≤ a)
      ((rc.filter (fun e2 => e2.2 == 1)).map (fun e2 => e2.1))
    some ⟨.threeOfAKind, cards, e.1 :: kickers⟩

/-- `HandEvaluator._check_two_pair`. -/
def checkTwoPair (cards : List Card) : Option HandResult :=
  let rc := rankCounts cards
  let pairs := (rc.filter (fun e => e.2 == 2)).map (fun e => e.1)
  if pairs.length == 2 then
    match rc.find? (fun e => e.2 == 1) with
    | none => none
    | some k =>
      some ⟨.twoPair, cards, (List.insertionSort (fun a b => b ≤ a) pairs) ++ [k.1]⟩
  else none

/-- `HandEvaluator._check_one_pair`. -/
def checkOnePair (cards : List Card) : Option HandResult :=
  let rc := rankCounts cards
  match rc.find? (fun e => e.2 == 2) with
  | none => none
  | some e =>
    let kickers := List.insertionSort (fun a b => b ≤ a)
      ((rc.filter (fun e2 => e2.2 == 1)).map (fun e2 => e2.1))
    some ⟨.onePair, cards, e.1 :: kickers⟩

/-- `HandEvaluator._evaluate_five_cards`: the strict descending priority
chain.  (The 5-card length guard raises in the source; every call site
passes exactly 5 cards, and the claims hypothesise length 5.) -/
def evaluateFiveCards (cards : List Card) : HandResult :=
  let sc := sortedDesc cards
  if isRoyalFlush sc then ⟨.royalFlush, sc, [14]⟩
  else if isStraightFlush sc then ⟨.straightFlush, sc, [getStraightHighCard sc]⟩
  else match checkFourOfAKind sc with
  | some r => r
  | none => match checkFullHouse sc with
    | some r => r
    | none =>
      if isFlush sc then ⟨.flush, sc, sc.map (fun c => c.rank.val)⟩
      else if isStraight sc then ⟨.straight, sc, [getStraightHighCard sc]⟩
      else match checkThreeOfAKind sc with
      | some r => r
      | none => match checkTwoPair sc with
        | some r => r
        | none => match checkOnePair sc with
          | some r => r
          | none => ⟨.highCard, sc, sc.map (fun c => c.rank.val)⟩

/-- One iteration of the best-hand loop in `evaluate_hand`
(`if best_hand is None or hand_result > best_hand: best_hand = hand_result`;
Python `a > b` delegates to `b.__lt__(a)`). -/
def bestStep (best : Option HandResult) (five : List Card) : Option HandResult :=
  let hr := evaluateFiveCards five
  match best with
  | none => some hr
  | some b => if ltHR b hr then some hr else some b

/-- `HandEvaluator.evaluate_hand`: `none` for a wrong-sized input (the
source raises `ValueError`); for 7 cards the best of the C(7,5) = 21
five-card evaluations under the `HandResult` order. -/
def evaluateHand (cards : List Card) : Option HandResult :=
  if cards.length = 7 then
    (List.sublistsLen 5 cards).foldl bestStep none
  else none


/-! ### Player state (src/game/player.py) -/

inductive PlayerStatus
  | active | folded | allIn | sittingOut
deriving DecidableEq, Repr

/-- `PlayerAction` enum. -/
inductive PAction
  | fold | check | call | raise | allIn
deriving DecidableEq, Repr

/-- `Player`.  Names are modelled as `Nat` identities (the engine rejects
duplicate names at seating time). -/
structure PlayerState where
  name : Nat
  chips : Int
  position : Nat
  holeCards : List Card
  status : PlayerStatus
  currentBet : Int
  totalBet : Int
  lastAction : Option PAction
  handsPlayed : Nat
  handsWon : Nat
  totalWinnings : Int
deriving DecidableEq, Repr

instance : Inhabited PlayerState :=
  ⟨{ name := 0, chips := 0, position := 0, holeCards := [], status := .sittingOut,
     currentBet := 0, totalBet := 0, lastAction := none, handsPlayed := 0,
     handsWon := 0, totalWinnings := 0 }⟩

/-- `Player.can_act`. -/
def PlayerState.canAct (p : PlayerState) : Bool := p.status == .active

/-- `Player.is_in_hand`. -/
def PlayerState.isInHand (p : PlayerState) : Bool :=
  p.status == .active || p.status == .allIn

/-- `Player.sit_in`. -/
def PlayerState.sitIn (p : PlayerState) : PlayerState :=
  if 0 < p.chips then { p with status := .active } else p

/-- `Player.fold`. -/
def PlayerState.fold (p : PlayerState) : PlayerState :=
  if p.status ≠ .sittingOut then
    { p with status := .folded, lastAction := some .fold }
  else p

/-- `Player.sit_out` (the inner `fold()` call is a no-op because the status
was just set to sitting-out). -/
def PlayerState.sitOut (p : PlayerState) : PlayerState :=
  ({ p with status := .sittingOut } : PlayerState).fold

/-- `Player.check`. -/
def PlayerState.checkMove (p : PlayerState) : PlayerState × Bool :=
  if p.currentBet = 0 ∧ p.status = .active then
    ({ p with lastAction := some .check }, true)
  else (p, false)

/-- `Player.call`: top up the current-round contribution to `amount`,
going all-in when the stack cannot cover the gap; returns the amount moved. -/
def PlayerState.call (p : PlayerState) (amount : Int) : PlayerState × Int :=
  if p.status ≠ .active then (p, 0)
  else
    let callAmount := amount - p.currentBet
    if callAmount ≤ 0 then (p, 0)
    else if p.chips ≤ callAmount then
      let actual := p.chips
      ({ p with chips := 0, currentBet := p.currentBet + actual,
                totalBet := p.totalBet + actual, status := .allIn,
                lastAction := some .allIn }, actual)
    else
      ({ p with chips := p.chips - callAmount, currentBet := p.currentBet + callAmount,
                totalBet := p.totalBet + callAmount, lastAction := some .call }, callAmount)

/-- `Player.raise_bet`. -/
def PlayerState.raiseBet (p : PlayerState) (totalAmount : Int) : PlayerState × Int :=
  if p.status ≠ .active then (p, 0)
  else
    let raiseAmount := totalAmount - p.currentBet
    if raiseAmount ≤ 0 then (p, 0)
    else if p.chips ≤ raiseAmount then
      let actual := p.chips
      ({ p with chips := 0, currentBet := p.currentBet + actual,
                totalBet := p.totalBet + actual, status := .allIn,
                lastAction := some .allIn }, actual)
    else
      ({ p with chips := p.chips - raiseAmount, currentBet := p.currentBet + raiseAmount,
                totalBet := p.totalBet + raiseAmount, lastAction := some .raise }, raiseAmount)

/-- `Player.all_in`. -/
def PlayerState.allInMove (p : PlayerState) : PlayerState × Int :=
  if p.status ≠ .active ∨ p.chips = 0 then (p, 0)
  else
    let amt := p.chips
    ({ p with chips := 0, currentBet := p.currentBet + amt, totalBet := p.totalBet + amt,
              status := .allIn, lastAction := some .allIn }, amt)

/-- `Player.new_betting_round`. -/
def PlayerState.newBettingRound (p : PlayerState) : PlayerState :=
  let p1 := { p with currentBet := 0, lastAction := none }
  if p1.status = .folded then p1
  else if p1.status = .allIn then p1
  else if 0 < p1.chips then { p1 with status := .active }
  else p1

/-- `Player.new_hand`. -/
def PlayerState.newHand (p : PlayerState) : PlayerState :=
  let p1 := { p with holeCards := [], currentBet := 0, totalBet := 0, lastAction := none }
  if 0 < p1.chips then { p1 with status := .active }
  else { p1 with status := .sittingOut }

/-- `Player.win_chips`. -/
def PlayerState.winChips (p : PlayerState) (amount : Int) : PlayerState :=
  { p with chips := p.chips + amount, totalWinnings := p.totalWinnings + amount,
           handsWon := p.handsWon + 1 }

/-- `Player.post_blind`: note that `current_bet` and `total_bet` are
assigned, not incremented. -/
def PlayerState.postBlind (p : PlayerState) (amount : Int) : PlayerState × Int :=
  if p.chips ≤ amount then
    let actual := p.chips
    ({ p with chips := 0, currentBet := actual, totalBet := actual, status := .allIn }, actual)
  else
    ({ p with chips := p.chips - amount, currentBet := amount, totalBet := amount }, amount)

/-- One within-hand player operation (the operations the engine invokes on a
seat between `new_hand` calls; blinds are posted only at the start of the
hand, while the seat's hand contribution is still zero, with a non-negative
configured blind). -/
inductive HandStep : PlayerState → PlayerState → Prop
  | call (p : PlayerState) (a : Int) : HandStep p (p.call a).1
  | raiseBet (p : PlayerState) (a : Int) : HandStep p (p.raiseBet a).1
  | allIn (p : PlayerState) : HandStep p p.allInMove.1
  | postBlind (p : PlayerState) (a : Int) (h0 : p.totalBet = 0) (ha : 0 ≤ a) :
      HandStep p (p.postBlind a).1
  | fold (p : PlayerState) : HandStep p p.fold
  | check (p : PlayerState) : HandStep p p.checkMove.1
  | newRound (p : PlayerState) : HandStep p p.newBettingRound

/-- States of a seat reachable during one hand: `new_hand` from some initial
state, followed by within-hand operations. -/
inductive HandReach (s0 : PlayerState) : PlayerState → Prop
  | start : HandReach s0 s0.newHand
  | step {p q : PlayerState} : HandReach s0 p → HandStep p q → HandReach s0 q

/-! ### Pot ledger (src/game/pot.py) -/

/-- `SidePot`: an amount and the players eligible to win it. -/
structure SidePot where
  amount : Int
  eligible : List PlayerState
deriving DecidableEq, Repr

/-- `player_contributions[player] += amount` (insertion-ordered dict update,
new keys appended). -/
def addContribution : List (Nat × Int) → Nat → Int → List (Nat × Int)
  | [], n, a => [(n, a)]
  | (m, v) :: t, n, a =>
    if m = n then (m, v + a) :: t else (m, v) :: addContribution t n a

/-- Dict lookup in the contribution map. -/
def lookupContribution : List (Nat × Int) → Nat → Option Int
  | [], _ => none
  | (m, v) :: t, n => if m = n then some v else lookupContribution t n

/-- `Pot`: running total, per-player contributions, derived side pots. -/
structure Pot where
  mainPot : Int
  contributions : List (Nat × Int)
  sidePots : List SidePot
deriving DecidableEq, Repr

/-- `Pot.add_bet`. -/
def Pot.addBet (pot : Pot) (name : Nat) (amount : Int) : Pot :=
  { pot with contributions := addContribution pot.contributions name amount,
             mainPot := pot.mainPot + amount }

/-- The layer loop of `Pot.create_side_pots`: walk the contributions in
ascending order; each strictly higher level opens a layer of size
(level difference) × (players not yet capped); a layer with no in-hand
eligible player is dropped; the capped player is removed after each step. -/
def sidePotsLoop (prev : Int) (remaining : List PlayerState) :
    List (PlayerState × Int) → List SidePot
  | [] => []
  | (p, amt) :: rest =>
    if prev < amt then
      let potAmount := (amt - prev) * (remaining.length : Int)
      let eligible := remaining.filter (fun q => q.isInHand)
      let tail := sidePotsLoop amt (remaining.erase p) rest
      if 0 < potAmount then
        (if eligible.isEmpty then tail else ⟨potAmount, eligible⟩ :: tail)
      else tail
    else sidePotsLoop prev (remaining.erase p) rest

/-- `Pot.create_side_pots`. -/
def Pot.createSidePots (pot : Pot) (players : List PlayerState) : Pot :=
  if pot.contributions.isEmpty then pot
  else
    let contribs := players.filterMap
      (fun p => (lookupContribution pot.contributions p.name).map (fun v => (p, v)))
    let sorted := List.insertionSort (fun a b => a.2 ≤ b.2) contribs
    { pot with sidePots := sidePotsLoop 0 players sorted }

/-- A player's recorded contribution (0 when absent). -/
def contribOf (contribs : List (Nat × Int)) (p : PlayerState) : Int :=
  (lookupContribution contribs p.name).getD 0

/-- `winnings[winner] += amount` (dict keyed by player, insertion order). -/
def addWinning : List (PlayerState × Int) → PlayerState → Int → List (PlayerState × Int)
  | [], q, a => [(q, a)]
  | (m, v) :: t, q, a =>
    if m = q then (m, v + a) :: t else (m, v) :: addWinning t q a

/-- `Pot.distribute_winnings`: for each side pot (paired with the winner
list of the same index), split evenly among the eligible winners, handing
the remainder chips one each to the first winners in list order. -/
def Pot.distributeWinnings (pot : Pot) (winnersByPot : List (List PlayerState)) :
    List (PlayerState × Int) :=
  pot.sidePots.enum.foldl
    (fun winnings ie =>
      if ie.1 < winnersByPot.length then
        let potWinners := (winnersByPot.getD ie.1 []).filter
          (fun p => decide (p ∈ ie.2.eligible))
        if potWinners.isEmpty then winnings
        else
          let k : Int := (potWinners.length : Int)
          let per := ie.2.amount.ediv k
          let rem := ie.2.amount.emod k
          potWinners.enum.foldl
            (fun w je => addWinning w je.2 (per + (if (je.1 : Int) < rem then 1 else 0)))
            winnings
      else winnings)
    []

/-! ### Game engine (src/game/game_engine.py) -/

inductive GamePhase
  | waiting | preFlop | flop | turn | river | showdown | handComplete
deriving DecidableEq, Repr

inductive GameMode
  | cashGame | tournament
deriving DecidableEq, Repr

/-- `Game`: the orchestrator state.  `hand_history` is omitted (never read
by the embedded operations). -/
structure Game where
  mode : GameMode
  smallBlind : Int
  bigBlind : Int
  phase : GamePhase
  handNumber : Nat
  players : List PlayerState
  deck : List Card
  communityCards : List Card
  pot : Pot
  dealerPosition : Nat
  currentPlayerIndex : Nat
  lastRaiserIndex : Int
  currentBet : Int
  minRaise : Int
deriving DecidableEq, Repr

/-- Replace the player object at seat `i` (Python mutates the shared
`Player` object in `self.players`). -/
def Game.updateAt (g : Game) (i : Nat) (f : PlayerState → PlayerState) : Game :=
  { g with players := g.players.set i (f (g.players.getD i default)) }

/-- `[i for i, p in enumerate(self.players) if p.can_act()]`. -/
def Game.activeIndices (g : Game) : List Nat :=
  (List.range g.players.length).filter (fun k => (g.players.getD k default).canAct)

/-- `[i for i, p in enumerate(self.players) if p.chips > 0]`. -/
def Game.fundedIndices (g : Game) : List Nat :=
  (List.range g.players.length).filter (fun k => 0 < (g.players.getD k default).chips)

/-- `Game._move_to_next_active_player`: clockwise search for the next seat
that can act, starting after the current index. -/
def Game.moveToNextActivePlayer (g : Game) : Game :=
  let act := g.activeIndices
  if act.isEmpty then g
  else
    let n := g.players.length
    match (List.range' 1 n).find? (fun k => act.contains ((g.currentPlayerIndex + k) % n)) with
    | some k => { g with currentPlayerIndex := (g.currentPlayerIndex + k) % n }
    | none => { g with currentPlayerIndex := act.getD 0 0 }

/-- `Game.get_current_player`: returns the seat index of the current actor
(object identity in the source; seats hold distinct objects) and the
possibly index-normalised state — when the indexed seat cannot act the
method advances `current_player_index` as a side effect. -/
def Game.getCurrentPlayer (g : Game) : Game × Option Nat :=
  if g.currentPlayerIndex < g.players.length then
    if (g.players.getD g.currentPlayerIndex default).canAct then
      (g, some g.currentPlayerIndex)
    else
      let g1 := g.moveToNextActivePlayer
      if g1.currentPlayerIndex < g1.players.length then (g1, some g1.currentPlayerIndex)
      else (g1, none)
  else (g, none)

/-- `Game.get_valid_actions`. -/
def Game.getValidActions (g : Game) (p : PlayerState) : List PAction :=
  if ¬ p.canAct then []
  else
    let a1 := [PAction.fold]
    let a2 :=
      if p.currentBet = g.currentBet then a1 ++ [PAction.check]
      else if g.currentBet - p.currentBet ≤ p.chips then a1 ++ [PAction.call]
      else a1
    let a3 :=
      if g.currentBet + g.minRaise - p.currentBet ≤ p.chips then a2 ++ [PAction.raise]
      else a2
    if 0 < p.chips then a3 ++ [PAction.allIn] else a3

/-- `max(p.current_bet for p in in_hand_players)` (first element seeds the
fold; only called on non-empty lists). -/
def maxCurrentBet : List PlayerState → Int
  | [] => 0
  | h :: t => t.foldl (fun m q => max m q.currentBet) h.currentBet

/-- `Game._is_betting_round_complete`. -/
def Game.isBettingRoundComplete (g : Game) : Bool :=
  let actives := g.players.filter (fun p => p.canAct)
  if actives.length ≤ 1 then true
  else if actives.any (fun p => p.lastAction == none) then false
  else
    let inHand := g.players.filter (fun p => p.isInHand)
    if inHand.length ≤ 1 then true
    else
      let maxBet := maxCurrentBet inHand
      inHand.all (fun p => p.status == .allIn || p.currentBet == maxBet)

/-- `Game._get_small_blind_position`. -/
def Game.getSmallBlindPosition (g : Game) : Nat :=
  let act := g.fundedIndices
  if act.length < 2 then 0
  else if act.length = 2 then g.dealerPosition
  else
    let dpa := if act.contains g.dealerPosition then act.indexOf g.dealerPosition else 0
    act.getD ((dpa + 1) % act.length) 0

/-- `Game._get_big_blind_position`. -/
def Game.getBigBlindPosition (g : Game) : Nat :=
  let act := g.fundedIndices
  if act.length < 2 then 1
  else
    let dpa := if act.contains g.dealerPosition then act.indexOf g.dealerPosition else 0
    if act.length = 2 then act.getD ((dpa + 1) % act.length) 0
    else act.getD ((dpa + 2) % act.length) 0

/-- `Game._set_first_player_to_act`. -/
def Game.setFirstPlayerToAct (g : Game) : Game :=
  let act := g.activeIndices
  if act.isEmpty then g
  else
    let n := g.players.length
    if g.phase = GamePhase.preFlop then
      if n = 2 then { g with currentPlayerIndex := g.dealerPosition }
      else
        let bb := g.getBigBlindPosition
        match (List.range' 1 (n - 1)).find? (fun i => act.contains ((bb + i) % n)) with
        | some i => { g with currentPlayerIndex := (bb + i) % n }
        | none => g
    else
      if n = 2 then
        let nd := (g.dealerPosition + 1) % n
        if act.contains nd then { g with currentPlayerIndex := nd }
        else { g with currentPlayerIndex := g.dealerPosition }
      else
        let sb := g.getSmallBlindPosition
        match (List.range n).find? (fun i => act.contains ((sb + i) % n)) with
        | some i => { g with currentPlayerIndex := (sb + i) % n }
        | none => { g with currentPlayerIndex := act.getD 0 0 }

/-- `Deck.deal_card`: pop from the end of the card list. -/
def dealCardFrom (deck : List Card) : Option Card × List Card :=
  match deck.getLast? with
  | none => (none, deck)
  | some c => (some c, deck.dropLast)

/-- `Deck.deal_cards`: deal up to `n`, stopping early when exhausted. -/
def dealCardsFrom : List Card → Nat → List Card × List Card
  | deck, 0 => ([], deck)
  | deck, Nat.succ k =>
    match dealCardFrom deck with
    | (none, d) => ([], d)
    | (some c, d) =>
      let r := dealCardsFrom d k
      (c :: r.1, r.2)

/-- `Game._deal_flop`: burn one, deal three community cards. -/
def Game.dealFlop (g : Game) : Game :=
  let d1 := (dealCardFrom g.deck).2
  let r := dealCardsFrom d1 3
  { g with deck := r.2, communityCards := g.communityCards ++ r.1 }

/-- `Game._deal_turn`. -/
def Game.dealTurn (g : Game) : Game :=
  let d1 := (dealCardFrom g.deck).2
  let r := dealCardsFrom d1 1
  { g with deck := r.2, communityCards := g.communityCards ++ r.1 }

/-- `Game._deal_river`. -/
def Game.dealRiver (g : Game) : Game :=
  let d1 := (dealCardFrom g.deck).2
  let r := dealCardsFrom d1 1
  { g with deck := r.2, communityCards := g.communityCards ++ r.1 }

/-- Seats still in the hand, in seat order. -/
def Game.inHandIndices (g : Game) : List Nat :=
  (List.range g.players.length).filter (fun k => (g.players.getD k default).isInHand)

/-- Placeholder result; `_showdown` only evaluates 2 hole + 5 community
cards, where `evaluate_hand` cannot fail. -/
def defaultHR : HandResult := ⟨.highCard, [], []⟩

/-- `Game._showdown`: with in-hand players remaining, evaluate each
player's 7 cards, find the best result, and split the whole pot evenly
among the players tied for best (remainder chips to the first winners in
seat order). -/
def Game.showdownResolve (g : Game) : Game :=
  let act := g.inHandIndices
  if act.length = 0 then { g with phase := .handComplete }
  else if act.length = 1 then
    let g1 := g.updateAt (act.getD 0 0) (fun p => p.winChips g.pot.mainPot)
    { g1 with phase := .handComplete }
  else
    let hands := act.map (fun k =>
      (k, (evaluateHand ((g.players.getD k default).holeCards ++ g.communityCards)).getD defaultHR))
    let best := match hands with
      | [] => defaultHR
      | h :: t => (t.map Prod.snd).foldl (fun b x => if ltHR b x then x else b) h.2
    let winners := (hands.filter (fun e => eqHR e.2 best)).map Prod.fst
    if winners.isEmpty then { g with phase := .handComplete }
    else
      let total := g.pot.mainPot
      let n : Int := (winners.length : Int)
      let per := total.ediv n
      let rem := total.emod n
      let g1 := winners.enum.foldl
        (fun gg je =>
          gg.updateAt je.2 (fun p => p.winChips (per + (if (je.1 : Int) < rem then 1 else 0))))
        g
      { g1 with phase := .handComplete }

/-- `Game._handle_single_winner`: if exactly one player is in hand, that
(first in-hand) seat wins the whole pot; the hand is marked complete either
way. -/
def Game.handleSingleWinner (g : Game) : Game :=
  let inHand := g.players.filter (fun p => p.isInHand)
  let g1 :=
    if inHand.length = 1 then
      g.updateAt (g.players.findIdx (fun p => p.isInHand)) (fun p => p.winChips g.pot.mainPot)
    else g
  { g1 with phase := .handComplete }

/-- `Game._advance_to_next_phase`. -/
def Game.advanceToNextPhase (g : Game) : Game :=
  let g1 := { g with players := g.players.map PlayerState.newBettingRound,
                     currentBet := 0, minRaise := g.bigBlind }
  let g2 := match g1.phase with
    | .preFlop => { g1.dealFlop with phase := .flop }
    | .flop => { g1.dealTurn with phase := .turn }
    | .turn => { g1.dealRiver with phase := .river }
    | .river => g1.showdownResolve
    | _ => g1
  match g2.phase with
  | .flop => g2.setFirstPlayerToAct
  | .turn => g2.setFirstPlayerToAct
  | .river => g2.setFirstPlayerToAct
  | _ => g2

/-- The tail of `Game.player_action` after the action branch: advance the
turn, end the hand if at most one player is in hand, else advance the phase
when the betting round is complete. -/
def Game.afterAction (g : Game) : Game × Bool :=
  let g1 := g.moveToNextActivePlayer
  if (g1.players.filter (fun p => p.isInHand)).length ≤ 1 then (g1.handleSingleWinner, true)
  else if g1.isBettingRoundComplete then (g1.advanceToNextPhase, true)
  else (g1, true)

/-- `Game.player_action`: the request is identified by the seat index `i`
(object identity of the `player` argument in the source; the engine's seat
list holds pairwise distinct objects). -/
def Game.playerAction (g : Game) (i : Nat) (a : PAction) (amount : Int) : Game × Bool :=
  let p := g.players.getD i default
  if ¬ p.canAct then (g, false)
  else
    let gc := g.getCurrentPlayer
    match gc.2 with
    | none => (gc.1, false)
    | some j =>
      if i ≠ j then (gc.1, false)
      else
        let g1 := gc.1
        let valid := g1.getValidActions p
        if ¬ valid.contains a then (g1, false)
        else
          match a with
          | .fold => (g1.updateAt i PlayerState.fold).afterAction
          | .check =>
            if p.currentBet ≠ g1.currentBet then (g1, false)
            else (g1.updateAt i (fun q => { q with lastAction := some PAction.check })).afterAction
          | .call =>
            let pr := p.call g1.currentBet
            ({ g1 with players := g1.players.set i pr.1,
                       pot := g1.pot.addBet p.name pr.2 } : Game).afterAction
          | .raise =>
            if amount < g1.currentBet + g1.minRaise then (g1, false)
            else
              let pr := p.raiseBet amount
              ({ g1 with players := g1.players.set i pr.1,
                         pot := g1.pot.addBet p.name pr.2,
                         currentBet := pr.1.currentBet,
                         minRaise := amount - (pr.1.currentBet - pr.2),
                         lastRaiserIndex := (i : Int) } : Game).afterAction
          | .allIn =>
            let pr := p.allInMove
            let g2 := { g1 with players := g1.players.set i pr.1,
                                pot := g1.pot.addBet p.name pr.2 }
            let g3 :=
              if g1.currentBet < pr.1.currentBet then
                { g2 with currentBet := pr.1.currentBet,
                          minRaise := pr.1.currentBet - g1.currentBet,
                          lastRaiserIndex := (i : Int) }
              else g2
            g3.afterAction


/-! ### Concrete example states used by counterexamples and witnesses -/

/-- Build a player in a given betting state. -/
def exPlayer (nm : Nat) (ch : Int) (st : PlayerStatus) (cb tb : Int)
    (la : Option PAction) : PlayerState :=
  { name := nm, chips := ch, position := nm, holeCards := [], status := st,
    currentBet := cb, totalBet := tb, lastAction := la,
    handsPlayed := 0, handsWon := 0, totalWinnings := 0 }

/-- Build a small game state around a seat list. -/
def exGame (ps : List PlayerState) (idx : Nat) (bet mr mp : Int)
    (contrib : List (Nat × Int)) : Game :=
  { mode := .cashGame, smallBlind := 10, bigBlind := 20, phase := .preFlop,
    handNumber := 1, players := ps, deck := [], communityCards := [],
    pot := { mainPot := mp, contributions := contrib, sidePots := [] },
    dealerPosition := 0, currentPlayerIndex := idx, lastRaiserIndex := -1,
    currentBet := bet, minRaise := mr }

/-- A mid-hand seat that has already contributed 5 this hand. -/
def pC9ex : PlayerState := exPlayer 0 10 .active 5 5 none

/-- Initial seat for the C9 witness trace. -/
def pC9start : PlayerState := exPlayer 0 100 .sittingOut 0 0 none

/-- One untouched active seat facing one all-in seat. -/
def gC2ex : Game :=
  exGame [exPlayer 0 500 .active 0 0 none, exPlayer 1 0 .allIn 100 100 (some .allIn)]
    0 100 100 100 [(1, 100)]

/-- A 30-chip stack facing a 100 table bet. -/
def pC3ex : PlayerState := exPlayer 0 30 .active 0 0 none

/-- Game state for the C3 counterexample. -/
def gC3ex : Game :=
  exGame [pC3ex, exPlayer 1 0 .allIn 100 100 (some .allIn)] 0 100 20 100 [(1, 100)]

/-- Actor index parked on a folded seat with two active seats behind it. -/
def gC4ex : Game :=
  exGame [exPlayer 0 100 .folded 0 0 (some .fold), exPlayer 1 100 .active 0 0 none,
          exPlayer 2 100 .active 0 0 none] 0 0 20 0 []

/-- Heads-up state where seat 0 faces a raise; folding leaves one player in hand. -/
def gC5ex : Game :=
  exGame [exPlayer 0 100 .active 20 20 none, exPlayer 1 100 .active 40 40 (some .raise)]
    0 40 20 60 [(0, 20), (1, 40)]

/-- A folded top contributor (100) over an in-hand 50 contributor. -/
def pC1A : PlayerState := exPlayer 0 0 .folded 0 100 none

/-- The in-hand low contributor for the C1 counterexample. -/
def pC1B : PlayerState := exPlayer 1 20 .active 0 50 none

/-- Ledger with contributions A=100, B=50. -/
def potC1ex : Pot := { mainPot := 150, contributions := [(0, 100), (1, 50)], sidePots := [] }

/-- An in-hand (all-in) top contributor of 100, for the C1 witness. -/
def pC1C : PlayerState := exPlayer 0 0 .allIn 0 100 none

/-- Three tied winners for the C8 witness. -/
def wAex : PlayerState := exPlayer 0 0 .active 0 0 none

/-- Second winner. -/
def wBex : PlayerState := exPlayer 1 0 .active 0 0 none

/-- Third winner. -/
def wCex : PlayerState := exPlayer 2 0 .active 0 0 none

/-- A single 100-chip pot with three eligible winners. -/
def potC8ex : Pot := { mainPot := 100, contributions := [], sidePots := [⟨100, [wAex, wBex, wCex]⟩] }

/-- Sample straight flush used to witness C6. -/
def sfEx : List Card :=
  [⟨.hearts, .five⟩, ⟨.hearts, .six⟩, ⟨.hearts, .seven⟩, ⟨.hearts, .eight⟩, ⟨.hearts, .nine⟩]

/-- Sample wheel hand used to witness C7. -/
def wheelEx : List Card :=
  [⟨.hearts, .two⟩, ⟨.hearts, .three⟩, ⟨.hearts, .four⟩, ⟨.hearts, .five⟩, ⟨.spades, .ace⟩]

/-! ### Evaluator lemmas -/

lemma sorted_ranksAsc (cards : List Card) : (ranksAsc cards).Sorted (· ≤ ·) :=
  List.sorted_insertionSort _ _

lemma ranksAsc_perm_self (cards : List Card) :
    (ranksAsc cards).Perm (cards.map (fun c => c.rank.val)) :=
  List.perm_insertionSort _ _

lemma ranksAsc_eq_of_perm (cards : List Card) (l : List Nat)
    (hp : (cards.map (fun c => c.rank.val)).Perm l) (hs : l.Sorted (· ≤ ·)) :
    ranksAsc cards = l :=
  List.eq_of_perm_of_sorted ((ranksAsc_perm_self cards).trans hp) (sorted_ranksAsc cards) hs

lemma ranksAsc_congr {l l' : List Card} (h : l.Perm l') : ranksAsc l = ranksAsc l' :=
  ranksAsc_eq_of_perm l (ranksAsc l')
    ((h.map _).trans (ranksAsc_perm_self l').symm) (sorted_ranksAsc l')

lemma isFlush_iff (c : Card) (rest : List Card) :
    isFlush (c :: rest) = true ↔ ∀ x ∈ c :: rest, ∀ y ∈ c :: rest, x.suit = y.suit := by
  simp only [isFlush, List.all_eq_true, beq_iff_eq]
  constructor
  · intro h x hx y hy
    have hx2 : x.suit = c.suit := by
      rcases List.mem_cons.mp hx with h1 | h1
      · rw [h1]
      · exact h x h1
    have hy2 : y.suit = c.suit := by
      rcases List.mem_cons.mp hy with h1 | h1
      · rw [h1]
      · exact h y h1
    rw [hx2, hy2]
  · intro h d hd
    exact h d (List.mem_cons_of_mem _ hd) c (List.mem_cons_self _ _)

lemma isFlush_congr {l l' : List Card} (h : l.Perm l') : isFlush l = isFlush l' := by
  cases l with
  | nil =>
    have h2 : l' = [] := h.symm.eq_nil
    rw [h2]
  | cons c rest =>
    cases l' with
    | nil => exact absurd h.eq_nil (by simp)
    | cons c' rest' =>
      rw [Bool.eq_iff_iff, isFlush_iff, isFlush_iff]
      constructor
      · intro hf x hx y hy
        exact hf x (h.mem_iff.mpr hx) y (h.mem_iff.mpr hy)
      · intro hf x hx y hy
        exact hf x (h.mem_iff.mp hx) y (h.mem_iff.mp hy)

lemma isStraight_congr {l l' : List Card} (h : l.Perm l') : isStraight l = isStraight l' := by
  unfold isStraight
  rw [ranksAsc_congr h]

lemma checkFourOfAKind_rank {cards : List Card} {r : HandResult}
    (h : checkFourOfAKind cards = some r) : r.handRank = HandRank.fourOfAKind := by
  simp only [checkFourOfAKind] at h
  rcases h4 : (rankCounts cards).find? (fun e => e.2 == 4) with _ | e <;> rw [h4] at h
  · exact absurd h (by simp)
  · rcases h1 : (rankCounts cards).find? (fun e2 => e2.2 == 1) with _ | k <;> rw [h1] at h
    · exact absurd h (by simp)
    · simp only [Option.some.injEq] at h
      rw [← h]

lemma checkFullHouse_rank {cards : List Card} {r : HandResult}
    (h : checkFullHouse cards = some r) : r.handRank = HandRank.fullHouse := by
  simp only [checkFullHouse] at h
  rcases h3 : ((rankCounts cards).filter (fun e => e.2 == 3)).getLast? with _ | t <;>
    rcases h2 : ((rankCounts cards).filter (fun e => e.2 == 2)).getLast? with _ | p <;>
    rw [h3, h2] at h
  · exact absurd h (by simp)
  · exact absurd h (by simp)
  · exact absurd h (by simp)
  · simp only [Option.some.injEq] at h
    rw [← h]

lemma checkThreeOfAKind_rank {cards : List Card} {r : HandResult}
    (h : checkThreeOfAKind cards = some r) : r.handRank = HandRank.threeOfAKind := by
  simp only [checkThreeOfAKind] at h
  rcases h3 : (rankCounts cards).find? (fun e => e.2 == 3) with _ | e <;> rw [h3] at h
  · exact absurd h (by simp)
  · simp only [Option.some.injEq] at h
    rw [← h]

lemma checkTwoPair_rank {cards : List Card} {r : HandResult}
    (h : checkTwoPair cards = some r) : r.handRank = HandRank.twoPair := by
  simp only [checkTwoPair] at h
  by_cases hp : (((rankCounts cards).filter (fun e => e.2 == 2)).map (fun e => e.1)).length == 2
  · rw [if_pos hp] at h
    rcases h1 : (rankCounts cards).find? (fun e => e.2 == 1) with _ | k <;> rw [h1] at h
    · exact absurd h (by simp)
    · simp only [Option.some.injEq] at h
      rw [← h]
  · rw [if_neg hp] at h
    exact absurd h (by simp)

lemma checkOnePair_rank {cards : List Card} {r : HandResult}
    (h : checkOnePair cards = some r) : r.handRank = HandRank.onePair := by
  simp only [checkOnePair] at h
  rcases h2 : (rankCounts cards).find? (fun e => e.2 == 2) with _ | e <;> rw [h2] at h
  · exact absurd h (by simp)
  · simp only [Option.some.injEq] at h
    rw [← h]

/-- C6: `_evaluate_five_cards` assigns exactly one category by a strict
descending priority chain: a hand that is both a flush and a straight is
classified Royal Flush or Straight Flush, never plain Flush or plain
Straight. -/
theorem claim_C6_five_card_priority (cards : List Card) (hlen : cards.length = 5) :
    ((isFlush cards = true ∧ isStraight cards = true) →
      (evaluateFiveCards cards).handRank = HandRank.royalFlush ∨
      (evaluateFiveCards cards).handRank = HandRank.straightFlush) ∧
    ((evaluateFiveCards cards).handRank = HandRank.flush → isStraight cards = false) ∧
    ((evaluateFiveCards cards).handRank = HandRank.straight → isFlush cards = false) := by
  have hsc : (sortedDesc cards).Perm cards := List.perm_insertionSort _ _
  have hF : isFlush (sortedDesc cards) = isFlush cards := isFlush_congr hsc
  have hS : isStraight (sortedDesc cards) = isStraight cards := isStraight_congr hsc
  by_cases hR : isRoyalFlush (sortedDesc cards) = true
  · have he : evaluateFiveCards cards = ⟨.royalFlush, sortedDesc cards, [14]⟩ := by
      simp only [evaluateFiveCards, hR, if_true]
    refine ⟨fun _ => Or.inl (by rw [he]), fun h => ?_, fun h => ?_⟩ <;> rw [he] at h <;> simp at h
  · by_cases hSF : isStraightFlush (sortedDesc cards) = true
    · have he : evaluateFiveCards cards =
          ⟨.straightFlush, sortedDesc cards, [getStraightHighCard (sortedDesc cards)]⟩ := by
        simp only [evaluateFiveCards, hR, hSF, Bool.false_eq_true, if_false, if_true]
      refine ⟨fun _ => Or.inr (by rw [he]), fun h => ?_, fun h => ?_⟩ <;> rw [he] at h <;> simp at h
    · have hR' : isRoyalFlush (sortedDesc cards) = false := by
        rw [← Bool.not_eq_true]; exact hR
      have hSF' : isStraightFlush (sortedDesc cards) = false := by
        rw [← Bool.not_eq_true]; exact hSF
      have hnot : ¬(isFlush cards = true ∧ isStraight cards = true) := by
        rintro ⟨h1, h2⟩
        apply hSF
        unfold isStraightFlush
        rw [hF, hS, h1, h2]
        rfl
      rcases h4 : checkFourOfAKind (sortedDesc cards) with _ | r4
      · rcases hFH : checkFullHouse (sortedDesc cards) with _ | rFH
        · by_cases hFl : isFlush (sortedDesc cards) = true
          · have he : evaluateFiveCards cards =
                ⟨.flush, sortedDesc cards, (sortedDesc cards).map (fun c => c.rank.val)⟩ := by
              simp only [evaluateFiveCards, hR', hSF', h4, hFH, hFl, Bool.false_eq_true,
                if_false, if_true]
            refine ⟨fun hc => absurd hc hnot, fun _ => ?_, fun h => ?_⟩
            · have h2 : isStraight (sortedDesc cards) = false := by
                rcases hs2 : isStraight (sortedDesc cards) with _ | _
                · rfl
                · exact absurd (by unfold isStraightFlush; rw [hFl, hs2]; rfl) hSF
              rw [← hS]; exact h2
            · rw [he] at h; simp at h
          · have hFl' : isFlush (sortedDesc cards) = false := by
              rw [← Bool.not_eq_true]; exact hFl
            by_cases hSt : isStraight (sortedDesc cards) = true
            · have he : evaluateFiveCards cards =
                  ⟨.straight, sortedDesc cards, [getStraightHighCard (sortedDesc cards)]⟩ := by
                simp only [evaluateFiveCards, hR', hSF', h4, hFH, hFl', hSt, Bool.false_eq_true,
                  if_false, if_true]
              refine ⟨fun hc => absurd hc hnot, fun h => ?_, fun _ => ?_⟩
              · rw [he] at h; simp at h
              · rw [← hF]; exact hFl'
            · have hSt' : isStraight (sortedDesc cards) = false := by
                rw [← Bool.not_eq_true]; exact hSt
              have hlow : (evaluateFiveCards cards).handRank = HandRank.threeOfAKind ∨
                  (evaluateFiveCards cards).handRank = HandRank.twoPair ∨
                  (evaluateFiveCards cards).handRank = HandRank.onePair ∨
                  (evaluateFiveCards cards).handRank = HandRank.highCard := by
                have he : evaluateFiveCards cards =
                    (match checkThreeOfAKind (sortedDesc cards) with
                    | some r => r
                    | none => match checkTwoPair (sortedDesc cards) with
                      | some r => r
                      | none => match checkOnePair (sortedDesc cards) with
                        | some r => r
                        | none => ⟨.highCard, sortedDesc cards,
                            (sortedDesc cards).map (fun c => c.rank.val)⟩) := by
                  simp only [evaluateFiveCards, hR', hSF', h4, hFH, hFl', hSt',
                    Bool.false_eq_true, if_false]
                rcases h3 : checkThreeOfAKind (sortedDesc cards) with _ | r3 <;> rw [h3] at he
                · rcases h2p : checkTwoPair (sortedDesc cards) with _ | r2 <;> rw [h2p] at he
                  · rcases h1p : checkOnePair (sortedDesc cards) with _ | r1 <;> rw [h1p] at he
                    · right; right; right; rw [he]
                    · right; right; left; rw [he]; exact checkOnePair_rank h1p
                  · right; left; rw [he]; exact checkTwoPair_rank h2p
                · left; rw [he]; exact checkThreeOfAKind_rank h3
              refine ⟨fun hc => absurd hc hnot, fun h => ?_, fun h => ?_⟩ <;>
                rcases hlow with h5 | h5 | h5 | h5 <;> rw [h5] at h <;> simp at h
        · have he : evaluateFiveCards cards = rFH := by
            simp only [evaluateFiveCards, hR', hSF', h4, hFH, Bool.false_eq_true, if_false]
          have hr : (evaluateFiveCards cards).handRank = HandRank.fullHouse := by
            rw [he]; exact checkFullHouse_rank hFH
          refine ⟨fun hc => absurd hc hnot, fun h => ?_, fun h => ?_⟩ <;>
            rw [hr] at h <;> simp at h
      · have he : evaluateFiveCards cards = r4 := by
          simp only [evaluateFiveCards, hR', hSF', h4, Bool.false_eq_true, if_false]
        have hr : (evaluateFiveCards cards).handRank = HandRank.fourOfAKind := by
          rw [he]; exact checkFourOfAKind_rank h4
        refine ⟨fun hc => absurd hc hnot, fun h => ?_, fun h => ?_⟩ <;>
          rw [hr] at h <;> simp at h

/-- C6 witness: a concrete flush-and-straight hand is classified Straight
Flush. -/
theorem claim_C6_witness :
    (sfEx.length = 5 ∧ isFlush sfEx = true ∧ isStraight sfEx = true) ∧
    ((evaluateFiveCards sfEx).handRank = HandRank.royalFlush ∨
     (evaluateFiveCards sfEx).handRank = HandRank.straightFlush) :=
  ⟨by decide, (claim_C6_five_card_priority sfEx (by decide)).1 ⟨by decide, by decide⟩⟩

lemma firstOccsAux_subset (l : List Nat) :
    ∀ (seen : List Nat), ∀ r ∈ firstOccsAux seen l, r ∈ l := by
  induction l with
  | nil => intro seen r hr; exact absurd hr (by simp [firstOccsAux])
  | cons a t ih =>
    intro seen r hr
    unfold firstOccsAux at hr
    by_cases ha : a ∈ seen
    · rw [if_pos ha] at hr
      exact List.mem_cons_of_mem _ (ih seen r hr)
    · rw [if_neg ha] at hr
      rcases List.mem_cons.mp hr with h1 | h1
      · rw [h1]; exact List.mem_cons_self _ _
      · exact List.mem_cons_of_mem _ (ih (a :: seen) r h1)

lemma rankCounts_mem {cards : List Card} {e : Nat × Nat} (he : e ∈ rankCounts cards) :
    e.2 = (cards.map (fun c => c.rank.val)).count e.1 ∧
    e.1 ∈ cards.map (fun c => c.rank.val) := by
  simp only [rankCounts, List.mem_map] at he
  obtain ⟨r, hr, hre⟩ := he
  have hmem : r ∈ cards.map (fun c => c.rank.val) := firstOccsAux_subset _ [] r hr
  rw [← hre]
  exact ⟨rfl, hmem⟩

lemma rankCounts_all_one {cards : List Card}
    (h : (cards.map (fun c => c.rank.val)).Perm [2, 3, 4, 5, 14]) :
    ∀ e ∈ rankCounts cards, e.2 = 1 := by
  intro e he
  obtain ⟨hcount, hmem⟩ := rankCounts_mem he
  rw [h.count_eq] at hcount
  rw [h.mem_iff] at hmem
  rw [hcount]
  simp only [List.mem_cons, List.not_mem_nil, or_false] at hmem
  rcases hmem with h1 | h1 | h1 | h1 | h1 <;> rw [h1] <;> rfl

/-- C7: a wheel hand (rank multiset {2,3,4,5,14}, suits not all equal) is
classified Straight with tie-break high card 5; it ranks below any 6-high
straight and above any One Pair hand. -/
theorem claim_C7_wheel_straight (cards : List Card)
    (hperm : (cards.map (fun c => c.rank.val)).Perm [2, 3, 4, 5, 14])
    (hnf : isFlush cards = false) :
    ((evaluateFiveCards cards).handRank = HandRank.straight ∧
     (evaluateFiveCards cards).values = [5]) ∧
    (∀ c6 : List Card, (evaluateFiveCards c6).handRank = HandRank.straight →
      (evaluateFiveCards c6).values = [6] →
      ltHR (evaluateFiveCards cards) (evaluateFiveCards c6) = true) ∧
    (∀ cp : List Card, (evaluateFiveCards cp).handRank = HandRank.onePair →
      ltHR (evaluateFiveCards cp) (evaluateFiveCards cards) = true) := by
  have hsc : (sortedDesc cards).Perm cards := List.perm_insertionSort _ _
  have hperm' : ((sortedDesc cards).map (fun c => c.rank.val)).Perm [2, 3, 4, 5, 14] :=
    (hsc.map _).trans hperm
  have hra : ranksAsc (sortedDesc cards) = [2, 3, 4, 5, 14] :=
    ranksAsc_eq_of_perm _ _ hperm' (by decide)
  have hFl : isFlush (sortedDesc cards) = false := by
    rw [isFlush_congr hsc]; exact hnf
  have hR : isRoyalFlush (sortedDesc cards) = false := by
    unfold isRoyalFlush; rw [hFl]; rfl
  have hSF : isStraightFlush (sortedDesc cards) = false := by
    unfold isStraightFlush; rw [hFl]; rfl
  have hones : ∀ e ∈ rankCounts (sortedDesc cards), e.2 = 1 :=
    rankCounts_all_one hperm'
  have hfind4 : (rankCounts (sortedDesc cards)).find? (fun e => e.2 == 4) = none :=
    List.find?_eq_none.mpr (fun e he => by simp [hones e he])
  have h4 : checkFourOfAKind (sortedDesc cards) = none := by
    simp only [checkFourOfAKind, hfind4]
  have hfil3 : (rankCounts (sortedDesc cards)).filter (fun e => e.2 == 3) = [] :=
    List.filter_eq_nil_iff.mpr (fun e he => by simp [hones e he])
  have hfil2 : (rankCounts (sortedDesc cards)).filter (fun e => e.2 == 2) = [] :=
    List.filter_eq_nil_iff.mpr (fun e he => by simp [hones e he])
  have hFH : checkFullHouse (sortedDesc cards) = none := by
    simp only [checkFullHouse, hfil3, hfil2]
    rfl
  have hSt : isStraight (sortedDesc cards) = true := by
    unfold isStraight; rw [hra]; rfl
  have hhigh : getStraightHighCard (sortedDesc cards) = 5 := by
    unfold getStraightHighCard; rw [hra]; rfl
  have he : evaluateFiveCards cards =
      ⟨.straight, sortedDesc cards, [getStraightHighCard (sortedDesc cards)]⟩ := by
    simp only [evaluateFiveCards, hR, hSF, h4, hFH, hFl, hSt, Bool.false_eq_true,
      if_false, if_true]
  rw [hhigh] at he
  refine ⟨⟨by rw [he], by rw [he]⟩, fun c6 h1 h2 => ?_, fun cp h1 => ?_⟩
  · rw [he]
    unfold ltHR
    rw [h1, h2]
    rfl
  · unfold ltHR
    rw [he, h1]
    rfl

/-- C7 witness: the concrete wheel 2♥3♥4♥5♥A♠ evaluates to Straight with
high card 5. -/
theorem claim_C7_witness :
    ((wheelEx.map (fun c => c.rank.val)).Perm [2, 3, 4, 5, 14] ∧ isFlush wheelEx = false) ∧
    ((evaluateFiveCards wheelEx).handRank = HandRank.straight ∧
     (evaluateFiveCards wheelEx).values = [5]) :=
  ⟨⟨by decide, by decide⟩, (claim_C7_wheel_straight wheelEx (by decide) (by decide)).1⟩

lemma foldl_bestStep_some (l : List (List Card)) (b : HandResult) :
    (l.foldl bestStep (some b)).isSome = true := by
  induction l generalizing b with
  | nil => rfl
  | cons x xs ih =>
    simp only [List.foldl_cons]
    have hstep : bestStep (some b) x =
        if ltHR b (evaluateFiveCards x) then some (evaluateFiveCards x) else some b := rfl
    rw [hstep]
    by_cases hlt : ltHR b (evaluateFiveCards x) = true
    · rw [if_pos hlt]; exact ih _
    · rw [if_neg (by simp [hlt])]; exact ih _

/-- C10: `evaluate_hand` errors (returns no result) exactly on inputs whose
length is not 7, and always produces a result on 7-card inputs. -/
theorem claim_C10_seven_card_guard (cards : List Card) :
    (evaluateHand cards).isSome = true ↔ cards.length = 7 := by
  constructor
  · intro h
    by_contra hne
    rw [evaluateHand, if_neg hne] at h
    exact absurd h (by simp)
  · intro h7
    rw [evaluateHand, if_pos h7]
    cases hl : List.sublistsLen 5 cards with
    | nil =>
      have hlen := List.length_sublistsLen 5 cards
      rw [hl, h7] at hlen
      exact absurd hlen (by decide)
    | cons x xs =>
      simp only [List.foldl_cons]
      have hstep : bestStep none x = some (evaluateFiveCards x) := rfl
      rw [hstep]
      exact foldl_bestStep_some xs _

/-! ### C9: player chip accounting -/

/-- C9 counterexample: `post_blind` assigns (rather than adds to) the hand
contribution, so on a seat that has already contributed this hand it does
not preserve stack + total contribution (15 becomes 13 here). -/
theorem claim_C9_counterexample :
    pC9ex.status = PlayerStatus.active ∧ 0 ≤ pC9ex.chips ∧
    (pC9ex.postBlind 3).1.chips + (pC9ex.postBlind 3).1.totalBet ≠
      pC9ex.chips + pC9ex.totalBet := by
  decide

/-- C9 (amended): `call`, `raise_bet` and `all_in` preserve stack + total
contribution at every state and return the stack decrease; `post_blind`
returns the stack decrease and preserves the sum exactly when the prior
hand contribution is zero (as at the blind-posting point of a hand); and
along any within-hand operation sequence the invariant
current-round ≤ total-hand ≤ initial stack holds. -/
theorem claim_C9_contribution_accounting :
    (∀ (p : PlayerState) (a : Int),
      (p.call a).1.chips + (p.call a).1.totalBet = p.chips + p.totalBet ∧
      (p.call a).2 = p.chips - (p.call a).1.chips) ∧
    (∀ (p : PlayerState) (a : Int),
      (p.raiseBet a).1.chips + (p.raiseBet a).1.totalBet = p.chips + p.totalBet ∧
      (p.raiseBet a).2 = p.chips - (p.raiseBet a).1.chips) ∧
    (∀ p : PlayerState,
      p.allInMove.1.chips + p.allInMove.1.totalBet = p.chips + p.totalBet ∧
      p.allInMove.2 = p.chips - p.allInMove.1.chips) ∧
    (∀ (p : PlayerState) (a : Int),
      (p.postBlind a).2 = p.chips - (p.postBlind a).1.chips ∧
      (p.totalBet = 0 →
        (p.postBlind a).1.chips + (p.postBlind a).1.totalBet = p.chips + p.totalBet)) ∧
    (∀ (s0 p : PlayerState), 0 ≤ s0.chips → HandReach s0 p →
      p.currentBet ≤ p.totalBet ∧ p.totalBet + p.chips = s0.chips ∧
      p.totalBet ≤ s0.chips ∧ 0 ≤ p.chips) := by
  refine ⟨?_, ?_, ?_, ?_, ?_⟩
  · intro p a
    simp only [PlayerState.call]
    split_ifs <;> (try simp) <;> omega
  · intro p a
    simp only [PlayerState.raiseBet]
    split_ifs <;> (try simp) <;> omega
  · intro p
    simp only [PlayerState.allInMove]
    split_ifs <;> (try simp) <;> omega
  · intro p a
    simp only [PlayerState.postBlind]
    split_ifs <;> (try simp) <;> omega
  · intro s0 p h0 hr
    have key : p.currentBet ≤ p.totalBet ∧ 0 ≤ p.totalBet ∧
        p.totalBet + p.chips = s0.chips ∧ 0 ≤ p.chips := by
      induction hr with
      | start =>
        simp only [PlayerState.newHand]
        split_ifs <;> (try simp) <;> omega
      | step hp hs ih =>
        cases hs with
        | call a =>
          simp only [PlayerState.call]
          split_ifs <;> (try simp) <;> omega
        | raiseBet a =>
          simp only [PlayerState.raiseBet]
          split_ifs <;> (try simp) <;> omega
        | allIn =>
          simp only [PlayerState.allInMove]
          split_ifs <;> (try simp) <;> omega
        | postBlind a hq ha =>
          simp only [PlayerState.postBlind]
          split_ifs <;> (try simp) <;> omega
        | fold =>
          simp only [PlayerState.fold]
          split_ifs <;> (try simp) <;> omega
        | check =>
          simp only [PlayerState.checkMove]
          split_ifs <;> (try simp) <;> omega
        | newRound =>
          simp only [PlayerState.newBettingRound]
          split_ifs <;> (try simp) <;> omega
    omega

/-- C9 witness: a concrete hand trace (new hand on a 100 stack, then a
10-chip blind) satisfying the invariant. -/
theorem claim_C9_witness :
    (0 ≤ pC9start.chips ∧ HandReach pC9start ((pC9start.newHand).postBlind 10).1) ∧
    (((pC9start.newHand).postBlind 10).1.currentBet ≤
        ((pC9start.newHand).postBlind 10).1.totalBet ∧
      ((pC9start.newHand).postBlind 10).1.totalBet +
        ((pC9start.newHand).postBlind 10).1.chips = pC9start.chips ∧
      ((pC9start.newHand).postBlind 10).1.totalBet ≤ pC9start.chips ∧
      0 ≤ ((pC9start.newHand).postBlind 10).1.chips) := by
  have hr : HandReach pC9start ((pC9start.newHand).postBlind 10).1 :=
    HandReach.step HandReach.start (HandStep.postBlind _ 10 (by decide) (by decide))
  exact ⟨⟨by decide, hr⟩,
    claim_C9_contribution_accounting.2.2.2.2 pC9start _ (by decide) hr⟩

/-! ### C2: betting-round completion -/

lemma length_filter_mono {α : Type} {l : List α} {p q : α → Bool}
    (h : ∀ x ∈ l, p x = true → q x = true) :
    (l.filter p).length ≤ (l.filter q).length := by
  induction l with
  | nil => simp
  | cons a t ih =>
    have ht : ∀ x ∈ t, p x = true → q x = true :=
      fun x hx => h x (List.mem_cons_of_mem _ hx)
    by_cases hp : p a = true
    · rw [List.filter_cons_of_pos hp, List.filter_cons_of_pos (h a (List.mem_cons_self _ _) hp)]
      simpa using ih ht
    · rw [List.filter_cons_of_neg (by simpa using hp)]
      by_cases hq : q a = true
      · rw [List.filter_cons_of_pos hq]
        exact le_trans (ih ht) (by simp)
      · rw [List.filter_cons_of_neg (by simpa using hq)]
        exact ih ht

/-- C2 counterexample: with one untouched active seat facing an all-in
seat, the code reports the round complete although the active seat has not
acted (and has not matched the bet), refuting the claimed iff. -/
theorem claim_C2_counterexample :
    gC2ex.isBettingRoundComplete = true ∧
    ∃ p ∈ gC2ex.players, p.canAct = true ∧ p.lastAction = none ∧
      p.currentBet ≠ maxCurrentBet (gC2ex.players.filter (fun q => q.isInHand)) := by
  decide

/-- C2 (amended): the round is judged complete iff at most one seat can
act, or (every seat that can act has acted and every in-hand non-all-in
seat matches the maximum in-hand current-round bet). -/
theorem claim_C2_round_completion (g : Game) :
    g.isBettingRoundComplete = true ↔
      ((g.players.filter (fun p => p.canAct)).length ≤ 1 ∨
       ((∀ p ∈ g.players, p.canAct = true → p.lastAction ≠ none) ∧
        (∀ p ∈ g.players, p.isInHand = true → p.status ≠ PlayerStatus.allIn →
          p.currentBet = maxCurrentBet (g.players.filter (fun q => q.isInHand))))) := by
  simp only [Game.isBettingRoundComplete]
  by_cases h1 : (g.players.filter (fun p => p.canAct)).length ≤ 1
  · simp [h1]
  · rw [if_neg h1]
    have hin : ¬ (g.players.filter (fun p => p.isInHand)).length ≤ 1 := by
      have hmono : (g.players.filter (fun p => p.canAct)).length ≤
          (g.players.filter (fun p => p.isInHand)).length := by
        apply length_filter_mono
        intro x _ hx
        simp only [PlayerState.canAct, beq_iff_eq] at hx
        simp [PlayerState.isInHand, hx]
      omega
    by_cases h2 : (g.players.filter (fun p => p.canAct)).any (fun p => p.lastAction == none)
    · rw [if_pos h2]
      constructor
      · intro hfalse
        exact absurd hfalse (by simp)
      · rintro (hc | ⟨hacted, _⟩)
        · exact absurd hc h1
        · simp only [List.any_eq_true] at h2
          obtain ⟨p, hpmem, hpnone⟩ := h2
          have hpc : p.canAct = true := (List.mem_filter.mp hpmem).2
          have := hacted p (List.mem_filter.mp hpmem).1 hpc
          simp only [beq_iff_eq] at hpnone
          exact (this hpnone).elim
    · rw [if_neg h2, if_neg hin]
      have h2' : ∀ p ∈ g.players, p.canAct = true → p.lastAction ≠ none := by
        intro p hp hc
        have : ∀ x ∈ g.players.filter (fun p => p.canAct), ¬ (x.lastAction == none) = true := by
          rw [← List.any_eq_false]
          simpa using h2
        have hx := this p (List.mem_filter.mpr ⟨hp, hc⟩)
        simpa using hx
      rw [List.all_eq_true]
      constructor
      · intro hall
        refine Or.inr ⟨h2', fun p hp hin2 hnall => ?_⟩
        have := hall p (List.mem_filter.mpr ⟨hp, hin2⟩)
        simp only [Bool.or_eq_true, beq_iff_eq] at this
        rcases this with hst | hcb
        · exact absurd hst hnall
        · exact hcb
      · rintro (hc | ⟨_, hmatch⟩)
        · exact absurd hc h1
        · intro p hpf
          have hpm := List.mem_filter.mp hpf
          by_cases hst : p.status = PlayerStatus.allIn
          · simp [hst]
          · have := hmatch p hpm.1 hpm.2 hst
            simp [this]

/-! ### C3: legal action set -/

/-- C3 counterexample: a 30-chip stack facing a 100 table bet has a
non-zero gap and holds chips, yet Call is not in the legal set (the code
requires the stack to cover the whole gap). -/
theorem claim_C3_counterexample :
    PAction.call ∉ gC3ex.getValidActions pC3ex ∧
    pC3ex.currentBet ≠ gC3ex.currentBet ∧ 0 < pC3ex.chips := by
  decide

/-- C3 (amended): for a seat that can act — Fold is always legal; Check
iff the seat's round contribution equals the table bet; Call iff the
contribution differs from the table bet and the gap is at most the stack;
Raise iff the stack covers the minimum-raise total above the current bet;
All-In iff the seat holds chips. -/
theorem claim_C3_valid_actions (g : Game) (p : PlayerState) (hact : p.canAct = true) :
    PAction.fold ∈ g.getValidActions p ∧
    (PAction.check ∈ g.getValidActions p ↔ p.currentBet = g.currentBet) ∧
    (PAction.call ∈ g.getValidActions p ↔
      p.currentBet ≠ g.currentBet ∧ g.currentBet - p.currentBet ≤ p.chips) ∧
    (PAction.raise ∈ g.getValidActions p ↔
      g.currentBet + g.minRaise - p.currentBet ≤ p.chips) ∧
    (PAction.allIn ∈ g.getValidActions p ↔ 0 < p.chips) := by
  simp only [Game.getValidActions, hact]
  split_ifs with hcb hcall hraise hchips <;> simp_all

/-- C3 witness: the amended characterisation applied to the concrete
short-stack state (Fold legal, Call excluded). -/
theorem claim_C3_witness :
    pC3ex.canAct = true ∧ PAction.fold ∈ gC3ex.getValidActions pC3ex := by
  refine ⟨by decide, (claim_C3_valid_actions gC3ex pC3ex (by decide)).1⟩

/-! ### C8: deterministic pot splitting -/

lemma addWinning_fresh (w : List (PlayerState × Int)) (q : PlayerState) (a : Int)
    (h : ∀ x ∈ w, x.1 ≠ q) : addWinning w q a = w ++ [(q, a)] := by
  induction w with
  | nil => rfl
  | cons x t ih =>
    have hx : x.1 ≠ q := h x (List.mem_cons_self _ _)
    simp only [addWinning]
    rw [if_neg hx]
    rw [ih (fun y hy => h y (List.mem_cons_of_mem _ hy))]
    simp

lemma foldl_addWinning (per rem : Int) :
    ∀ (l : List (Nat × PlayerState)) (w : List (PlayerState × Int)),
      (l.map Prod.snd).Nodup →
      (∀ e ∈ l, ∀ x ∈ w, x.1 ≠ e.2) →
      l.foldl (fun acc je => addWinning acc je.2 (per + (if (je.1 : Int) < rem then 1 else 0))) w
        = w ++ l.map (fun je => (je.2, per + (if (je.1 : Int) < rem then 1 else 0))) := by
  intro l
  induction l with
  | nil => intro w _ _; simp
  | cons e t ih =>
    intro w hnd hfresh
    simp only [List.foldl_cons]
    have h1 : addWinning w e.2 (per + (if (e.1 : Int) < rem then 1 else 0))
        = w ++ [(e.2, per + (if (e.1 : Int) < rem then 1 else 0))] :=
      addWinning_fresh w e.2 _
        (fun x hx => hfresh e (List.mem_cons_self _ _) x hx)
    rw [h1]
    have hnd' : (t.map Prod.snd).Nodup := by
      simp only [List.map_cons, List.nodup_cons] at hnd
      exact hnd.2
    have hnotin : e.2 ∉ t.map Prod.snd := by
      simp only [List.map_cons, List.nodup_cons] at hnd
      exact hnd.1
    have hfresh' : ∀ e2 ∈ t,
        ∀ x ∈ w ++ [(e.2, per + (if (e.1 : Int) < rem then 1 else 0))], x.1 ≠ e2.2 := by
      intro e2 he2 x hx
      rcases List.mem_append.mp hx with hxw | hxe
      · exact hfresh e2 (List.mem_cons_of_mem _ he2) x hxw
      · simp only [List.mem_singleton] at hxe
        rw [hxe]
        show e.2 ≠ e2.2
        intro hcontra
        rw [hcontra] at hnotin
        exact hnotin (List.mem_map_of_mem Prod.snd he2)
    rw [ih (w ++ [(e.2, per + (if (e.1 : Int) < rem then 1 else 0))]) hnd' hfresh']
    simp

/-- C8: `distribute_winnings` splits a pot layer evenly among its winners
in the given (seat) order, handing the remainder chips one each to the
first winners; the allocation is a pure function of the inputs, hence
identical on every run. -/
theorem claim_C8_split_determinism (amount : Int) (elig winners : List PlayerState)
    (pot : Pot) (hsp : pot.sidePots = [⟨amount, elig⟩])
    (hw : winners ≠ []) (hnd : winners.Nodup) (hsub : ∀ w ∈ winners, w ∈ elig) :
    pot.distributeWinnings [winners] =
      winners.enum.map (fun je =>
        (je.2, amount.ediv (winners.length : Int) +
          (if (je.1 : Int) < amount.emod (winners.length : Int) then 1 else 0))) := by
  simp only [Pot.distributeWinnings, hsp]
  have henum : ([(⟨amount, elig⟩ : SidePot)] : List SidePot).enum
      = [((0 : Nat), (⟨amount, elig⟩ : SidePot))] := rfl
  rw [henum]
  simp only [List.foldl_cons, List.foldl_nil]
  rw [show ([winners] : List (List PlayerState)).getD 0 [] = winners from rfl]
  have hfilter : winners.filter (fun p => decide (p ∈ elig)) = winners :=
    List.filter_eq_self.mpr (fun a ha => by simpa using hsub a ha)
  rw [hfilter]
  have hne : winners.isEmpty = false := by
    cases winners with
    | nil => exact absurd rfl hw
    | cons a t => rfl
  rw [if_pos (show (0 : Nat) < ([winners] : List (List PlayerState)).length by simp),
    if_neg (show ¬ winners.isEmpty = true by simp [hne])]
  rw [foldl_addWinning (amount.ediv (winners.length : Int))
    (amount.emod (winners.length : Int)) winners.enum []
    (by rw [List.enum_map_snd]; exact hnd) (by intro e _ x hx; exact absurd hx (by simp))]
  simp

/-- C8 witness: a 100-chip pot among three winners pays 34, 33, 33 with the
extra chip to the first winner in order. -/
theorem claim_C8_witness :
    (potC8ex.sidePots = [⟨100, [wAex, wBex, wCex]⟩] ∧
      ([wAex, wBex, wCex] : List PlayerState) ≠ [] ∧
      ([wAex, wBex, wCex] : List PlayerState).Nodup ∧
      (∀ w ∈ ([wAex, wBex, wCex] : List PlayerState), w ∈ [wAex, wBex, wCex])) ∧
    (potC8ex.distributeWinnings [[wAex, wBex, wCex]]).map (fun e => (e.1.name, e.2)) =
      [(0, 34), (1, 33), (2, 33)] := by
  refine ⟨⟨rfl, by decide, by decide, by decide⟩, ?_⟩
  rw [claim_C8_split_determinism 100 [wAex, wBex, wCex] [wAex, wBex, wCex] potC8ex rfl
    (by decide) (by decide) (by decide)]
  decide

/-! ### C1: side-pot construction -/

/-- C1 counterexample: contributions A=100 (A folded), B=50 (B in hand).
The top layer's only contributor has folded, so `create_side_pots` drops
that layer: the side pots sum to 100 while the contributions sum to 150 —
50 contributed chips are assigned to no layer. -/
theorem claim_C1_counterexample :
    (((potC1ex.createSidePots [pC1A, pC1B]).sidePots.map (fun sp => sp.amount)).sum = 100) ∧
    ((potC1ex.contributions.map Prod.snd).sum = 150) ∧
    [pC1A, pC1B].Nodup ∧ (∀ p ∈ [pC1A, pC1B], 0 ≤ contribOf potC1ex.contributions p) ∧
    potC1ex.contributions ≠ [] := by
  decide

lemma sidePotsLoop_sum :
    ∀ (l : List (PlayerState × Int)) (prev : Int) (remaining : List PlayerState),
      List.Pairwise (fun a b => a.2 ≤ b.2) l →
      remaining.Perm (l.map Prod.fst) →
      (∀ x ∈ l, prev ≤ x.2) →
      ((∃ qa ∈ l, qa.1.isInHand = true ∧ ∀ x ∈ l, x.2 ≤ qa.2) ∨ (∀ x ∈ l, x.2 ≤ prev)) →
      ((sidePotsLoop prev remaining l).map (fun sp => sp.amount)).sum
        = (l.map Prod.snd).sum - prev * l.length := by
  intro l
  induction l with
  | nil =>
    intro prev remaining _ _ _ _
    simp [sidePotsLoop]
  | cons hd rest ih =>
    intro prev remaining hsort hperm hlow hmax
    obtain ⟨p, amt⟩ := hd
    rw [List.pairwise_cons] at hsort
    obtain ⟨hhead, hsortrest⟩ := hsort
    have hlen : remaining.length = rest.length + 1 := by
      rw [hperm.length_eq]
      simp
    have hpermerase : (remaining.erase p).Perm (rest.map Prod.fst) := by
      have h1 := hperm.erase p
      rwa [List.map_cons, List.erase_cons_head] at h1
    have hprevamt : prev ≤ amt := hlow (p, amt) (List.mem_cons_self _ _)
    by_cases hlt : prev < amt
    · have hq : ∃ qa ∈ (p, amt) :: rest, qa.1.isInHand = true ∧
          ∀ x ∈ (p, amt) :: rest, x.2 ≤ qa.2 := by
        rcases hmax with h | h
        · exact h
        · have := h (p, amt) (List.mem_cons_self _ _)
          omega
      obtain ⟨qa, hqmem, hqin, hqmax⟩ := hq
      have hqrem : qa.1 ∈ remaining := by
        rw [hperm.mem_iff]
        exact List.mem_map_of_mem Prod.fst hqmem
      have heligmem : qa.1 ∈ remaining.filter (fun q => q.isInHand) :=
        List.mem_filter.mpr ⟨hqrem, hqin⟩
      have heligne : (remaining.filter (fun q => q.isInHand)).isEmpty = false := by
        cases hfe : remaining.filter (fun q => q.isInHand) with
        | nil => rw [hfe] at heligmem; exact absurd heligmem (by simp)
        | cons _ _ => rfl
      have hlenZ : (remaining.length : Int) = (rest.length : Int) + 1 := by
        exact_mod_cast hlen
      have hpos : (0 : Int) < (amt - prev) * (remaining.length : Int) := by
        apply mul_pos (by omega)
        rw [hlenZ]
        positivity
      have hmax' : (∃ qa ∈ rest, qa.1.isInHand = true ∧ ∀ x ∈ rest, x.2 ≤ qa.2) ∨
          (∀ x ∈ rest, x.2 ≤ amt) := by
        rcases List.mem_cons.mp hqmem with heq | hqrest
        · right
          intro x hx
          have := hqmax x (List.mem_cons_of_mem _ hx)
          rw [heq] at this
          exact this
        · exact Or.inl ⟨qa, hqrest, hqin, fun x hx => hqmax x (List.mem_cons_of_mem _ hx)⟩
      have hih := ih amt (remaining.erase p) hsortrest hpermerase
        (fun x hx => hhead x hx) hmax'
      simp only [sidePotsLoop]
      rw [if_pos hlt, if_pos hpos, heligne]
      simp only [Bool.false_eq_true, if_false, List.map_cons, List.sum_cons]
      rw [hih]
      simp only [List.map_cons, List.sum_cons, List.length_cons]
      push_cast
      rw [hlenZ]
      ring
    · have heq : amt = prev := by omega
      have hmax' : (∃ qa ∈ rest, qa.1.isInHand = true ∧ ∀ x ∈ rest, x.2 ≤ qa.2) ∨
          (∀ x ∈ rest, x.2 ≤ prev) := by
        rcases hmax with ⟨qa, hqmem, hqin, hqmax⟩ | h
        · rcases List.mem_cons.mp hqmem with heq2 | hqrest
          · right
            intro x hx
            have := hqmax x (List.mem_cons_of_mem _ hx)
            rw [heq2] at this
            simp only at this
            omega
          · exact Or.inl ⟨qa, hqrest, hqin, fun x hx => hqmax x (List.mem_cons_of_mem _ hx)⟩
        · exact Or.inr (fun x hx => h x (List.mem_cons_of_mem _ hx))
      have hih := ih prev (remaining.erase p) hsortrest hpermerase
        (fun x hx => by have := hhead x hx; omega) hmax'
      simp only [sidePotsLoop]
      rw [if_neg hlt, hih]
      simp only [List.map_cons, List.sum_cons, List.length_cons]
      push_cast
      rw [heq]
      ring

lemma filter_mem_erase (p : PlayerState) (fr : List PlayerState) (hp : p ∉ fr) :
    ∀ (players : List PlayerState), players.Nodup →
      (players.filter (fun q => decide (q ∈ p :: fr))).erase p
        = players.filter (fun q => decide (q ∈ fr)) := by
  intro players
  induction players with
  | nil => intro _; rfl
  | cons a t ih =>
    intro hnd
    have hnd' : t.Nodup := (List.nodup_cons.mp hnd).2
    have hat : a ∉ t := (List.nodup_cons.mp hnd).1
    by_cases hap : a = p
    · subst hap
      rw [List.filter_cons_of_pos (by simp), List.erase_cons_head,
        List.filter_cons_of_neg (by simpa using hp)]
      apply List.filter_congr
      intro q hq
      have hqa : q ≠ a := fun h => hat (h ▸ hq)
      simp [List.mem_cons, hqa]
    · have herase : ∀ (l : List PlayerState), (a :: l).erase p = a :: l.erase p :=
        fun l => List.erase_cons_tail (by simpa using hap)
      by_cases haf : a ∈ fr
      · rw [List.filter_cons_of_pos (by simp [List.mem_cons, haf]),
          List.filter_cons_of_pos (by simpa using haf), herase, ih hnd']
      · have hanot : a ∉ p :: fr := by
          simp only [List.mem_cons]
          rintro (h | h)
          · exact hap h
          · exact haf h
        rw [List.filter_cons_of_neg (by simpa using hanot),
          List.filter_cons_of_neg (by simpa using haf), ih hnd']

lemma sidePotsLoop_layers (players : List PlayerState) (c : PlayerState → Int)
    (hnd : players.Nodup) :
    ∀ (l : List (PlayerState × Int)) (prev : Int),
      List.Pairwise (fun a b => a.2 ≤ b.2) l →
      (∀ x ∈ l, x.1 ∈ players ∧ x.2 = c x.1) →
      (l.map Prod.fst).Nodup →
      (∀ x ∈ l, prev ≤ x.2) →
      0 ≤ prev →
      (prev = 0 ∨ ∃ p ∈ players, c p = prev) →
      (∀ q ∈ players, q ∉ l.map Prod.fst → c q ≤ prev) →
      ∀ sp ∈ sidePotsLoop prev (players.filter (fun q => decide (q ∈ l.map Prod.fst))) l,
        ∃ L Lp : Int, (∃ p ∈ players, c p = L) ∧ 0 ≤ Lp ∧ Lp < L ∧
          (Lp = 0 ∨ ∃ p ∈ players, c p = Lp) ∧
          (∀ p ∈ players, c p ≤ Lp ∨ L ≤ c p) ∧
          sp.amount = (L - Lp) * ((players.filter (fun q => decide (L ≤ c q))).length : Int) ∧
          sp.eligible = players.filter (fun q => q.isInHand && decide (L ≤ c q)) := by
  intro l
  induction l with
  | nil =>
    intro prev _ _ _ _ _ _ _ sp hsp
    exact absurd hsp (by simp [sidePotsLoop])
  | cons hd rest ih =>
    intro prev hsort hmem hfstnd hlow hprev0 hlevel hproc sp hsp
    obtain ⟨p, amt⟩ := hd
    rw [List.pairwise_cons] at hsort
    obtain ⟨hhead, hsortrest⟩ := hsort
    obtain ⟨hpmem, hamt⟩ := hmem (p, amt) (List.mem_cons_self _ _)
    simp only at hamt
    simp only [List.map_cons] at hfstnd hproc hsp
    have hpnotin : p ∉ rest.map Prod.fst := (List.nodup_cons.mp hfstnd).1
    have hrestnd : (rest.map Prod.fst).Nodup := (List.nodup_cons.mp hfstnd).2
    have herase : (players.filter (fun q => decide (q ∈ p :: rest.map Prod.fst))).erase p
        = players.filter (fun q => decide (q ∈ rest.map Prod.fst)) :=
      filter_mem_erase p (rest.map Prod.fst) hpnotin players hnd
    have hmemrest : ∀ x ∈ rest, x.1 ∈ players ∧ x.2 = c x.1 :=
      fun x hx => hmem x (List.mem_cons_of_mem _ hx)
    by_cases hlt : prev < amt
    · -- layer possibly created at level amt
      have hiff : ∀ q ∈ players,
          (decide (q ∈ p :: rest.map Prod.fst)) = (decide (amt ≤ c q)) := by
        intro q hq
        rw [decide_eq_decide]
        constructor
        · intro hmem2
          rcases List.mem_cons.mp hmem2 with heq | hin
          · rw [heq, ← hamt]
          · obtain ⟨x, hx, hxq⟩ := List.mem_map.mp hin
            have h1 := (hmemrest x hx).2
            have h2 := hhead x hx
            rw [hxq] at h1
            omega
        · intro hle
          by_contra hnot
          have := hproc q hq hnot
          omega
      have hremeq : players.filter (fun q => decide (q ∈ p :: rest.map Prod.fst))
          = players.filter (fun q => decide (amt ≤ c q)) :=
        List.filter_congr hiff
      have hproc' : ∀ q ∈ players, q ∉ rest.map Prod.fst → c q ≤ amt := by
        intro q hq hnot
        by_cases hqp : q = p
        · rw [hqp, ← hamt]
        · have hqnl : q ∉ p :: rest.map Prod.fst := by
            simp only [List.mem_cons]
            rintro (h | h)
            · exact hqp h
            · exact hnot h
          have := hproc q hq hqnl
          omega
      have hih := ih amt hsortrest hmemrest hrestnd
        (fun x hx => hhead x hx) (by omega) (Or.inr ⟨p, hpmem, hamt.symm⟩) hproc'
      -- case on whether the head layer was kept
      simp only [sidePotsLoop, if_pos hlt] at hsp
      rw [herase] at hsp
      by_cases hpos : (0 : Int) <
          (amt - prev) * ((players.filter (fun q => decide (q ∈ p :: rest.map Prod.fst))).length : Int)
      · rw [if_pos hpos] at hsp
        by_cases hemp : ((players.filter
            (fun q => decide (q ∈ p :: rest.map Prod.fst))).filter (fun q => q.isInHand)).isEmpty
        · rw [if_pos hemp] at hsp
          exact hih sp hsp
        · rw [if_neg hemp] at hsp
          rcases List.mem_cons.mp hsp with hsphead | hsptail
          · -- the head layer: L = amt, Lp = prev
            refine ⟨amt, prev, ⟨p, hpmem, hamt.symm⟩, hprev0, hlt, hlevel, ?_, ?_, ?_⟩
            · intro q hq
              by_cases hqmem : q ∈ p :: rest.map Prod.fst
              · right
                have := hiff q hq
                rw [decide_eq_decide] at this
                exact this.mp hqmem
              · left
                exact le_trans (hproc q hq hqmem) (le_refl prev)
            · rw [hsphead]
              simp only
              rw [hremeq]
            · rw [hsphead]
              simp only
              rw [hremeq, List.filter_filter]
          · exact hih sp hsptail
      · rw [if_neg hpos] at hsp
        exact hih sp hsp
    · -- no new level: amt = prev
      have heq : amt = prev := by
        have := hlow (p, amt) (List.mem_cons_self _ _)
        simp only at this
        omega
      have hproc' : ∀ q ∈ players, q ∉ rest.map Prod.fst → c q ≤ prev := by
        intro q hq hnot
        by_cases hqp : q = p
        · rw [hqp, ← hamt]
          omega
        · have hqnl : q ∉ p :: rest.map Prod.fst := by
            simp only [List.mem_cons]
            rintro (h | h)
            · exact hqp h
            · exact hnot h
          exact hproc q hq hqnl
      have hih := ih prev hsortrest hmemrest hrestnd
        (fun x hx => by have h1 := hhead x hx; omega) hprev0 hlevel hproc'
      simp only [sidePotsLoop, if_neg hlt] at hsp
      rw [herase] at hsp
      exact hih sp hsp

lemma filterMap_contrib (contribs : List (Nat × Int)) :
    ∀ (players : List PlayerState),
      (∀ p ∈ players, (lookupContribution contribs p.name).isSome = true) →
      players.filterMap (fun p => (lookupContribution contribs p.name).map (fun v => (p, v)))
        = players.map (fun p => (p, contribOf contribs p)) := by
  intro players
  induction players with
  | nil => intro _; rfl
  | cons a t ih =>
    intro hmem
    have ha := hmem a (List.mem_cons_self _ _)
    cases hlook : lookupContribution contribs a.name with
    | none => rw [hlook] at ha; exact absurd ha (by simp)
    | some v =>
      simp only [List.filterMap_cons, hlook, Option.map_some, List.map_cons]
      rw [ih (fun p hp => hmem p (List.mem_cons_of_mem _ hp))]
      simp [contribOf, hlook]

/-- C1 (amended): with the players list being exactly the recorded
contributors (no duplicates, non-negative contributions), `create_side_pots`
satisfies: IF at least one maximal contributor is still in hand, the side-pot
amounts sum to the total contributions; and unconditionally each produced
layer sits at a contribution level L with previous distinct level Lp, has
amount (L - Lp) × (number of players contributing at least L), and its
eligible set is exactly the still-in-hand players contributing at least L.
(Without the in-hand maximal contributor, a top layer whose contributors
all folded is dropped and its chips are assigned to no layer.) -/
theorem claim_C1_side_pot_partition (pot : Pot) (players : List PlayerState)
    (hcne : pot.contributions ≠ [])
    (hnd : players.Nodup)
    (hmem : ∀ p ∈ players, (lookupContribution pot.contributions p.name).isSome = true)
    (hpos : ∀ p ∈ players, 0 ≤ contribOf pot.contributions p) :
    ((∃ q ∈ players, q.isInHand = true ∧
        ∀ p ∈ players, contribOf pot.contributions p ≤ contribOf pot.contributions q) →
      ((pot.createSidePots players).sidePots.map (fun sp => sp.amount)).sum
        = (players.map (fun p => contribOf pot.contributions p)).sum) ∧
    (∀ sp ∈ (pot.createSidePots players).sidePots,
      ∃ L Lp : Int, (∃ p ∈ players, contribOf pot.contributions p = L) ∧ 0 ≤ Lp ∧ Lp < L ∧
        (Lp = 0 ∨ ∃ p ∈ players, contribOf pot.contributions p = Lp) ∧
        (∀ p ∈ players, contribOf pot.contributions p ≤ Lp ∨
          L ≤ contribOf pot.contributions p) ∧
        sp.amount = (L - Lp) *
          ((players.filter
            (fun q => decide (L ≤ contribOf pot.contributions q))).length : Int) ∧
        sp.eligible = players.filter
          (fun q => q.isInHand && decide (L ≤ contribOf pot.contributions q))) := by
  have hemp : pot.contributions.isEmpty = false := by
    cases hc : pot.contributions with
    | nil => exact absurd hc hcne
    | cons _ _ => rfl
  have hfm : players.filterMap
      (fun p => (lookupContribution pot.contributions p.name).map (fun v => (p, v)))
      = players.map (fun p => (p, contribOf pot.contributions p)) :=
    filterMap_contrib pot.contributions players hmem
  haveI instTot : IsTotal (PlayerState × Int) (fun a b => a.2 ≤ b.2) :=
    ⟨fun a b => le_total a.2 b.2⟩
  haveI instTra : IsTrans (PlayerState × Int) (fun a b => a.2 ≤ b.2) :=
    ⟨fun a b c2 hab hbc => le_trans hab hbc⟩
  set c := fun p => contribOf pot.contributions p with hc
  set l := List.insertionSort (fun a b => a.2 ≤ b.2)
    (players.filterMap
      (fun p => (lookupContribution pot.contributions p.name).map (fun v => (p, v)))) with hl
  have hsorted : List.Sorted (fun a b => a.2 ≤ b.2) l :=
    List.sorted_insertionSort _ _
  have hperml : l.Perm (players.map (fun p => (p, c p))) := by
    rw [hl, hfm]
    exact List.perm_insertionSort _ _
  have hpermfst : (l.map Prod.fst).Perm players := by
    have h1 := hperml.map Prod.fst
    simpa [Function.comp_def] using h1
  have hmeml : ∀ x ∈ l, x.1 ∈ players ∧ x.2 = c x.1 := by
    intro x hx
    have hx2 : x ∈ players.map (fun p => (p, c p)) := hperml.mem_iff.mp hx
    obtain ⟨p, hp, hpe⟩ := List.mem_map.mp hx2
    rw [← hpe]
    exact ⟨hp, rfl⟩
  have hlow : ∀ x ∈ l, (0 : Int) ≤ x.2 := by
    intro x hx
    obtain ⟨hp, he⟩ := hmeml x hx
    rw [he]
    exact hpos x.1 hp
  have hres : (pot.createSidePots players).sidePots = sidePotsLoop 0 players l := by
    rw [hl]
    simp only [Pot.createSidePots, hemp, Bool.false_eq_true, if_false]
  constructor
  · -- chip conservation, under an in-hand maximal contributor
    intro hmax
    obtain ⟨q, hq, hqin, hqmax⟩ := hmax
    have hql : (q, c q) ∈ l := by
      rw [hperml.mem_iff]
      exact List.mem_map_of_mem _ hq
    have hsum := sidePotsLoop_sum l 0 players hsorted hpermfst.symm hlow
      (Or.inl ⟨(q, c q), hql, hqin, fun x hx => by
        obtain ⟨hp, he⟩ := hmeml x hx
        rw [he]
        exact hqmax x.1 hp⟩)
    rw [hres, hsum]
    have hmapsnd : (l.map Prod.snd).Perm (players.map c) := by
      have h1 := hperml.map Prod.snd
      simpa [Function.comp_def] using h1
    rw [hmapsnd.sum_eq]
    simp
  · -- per-layer characterisation
    intro sp hsp
    rw [hres] at hsp
    have hfsteq : players.filter (fun q => decide (q ∈ l.map Prod.fst)) = players := by
      apply List.filter_eq_self.mpr
      intro a ha
      simp only [decide_eq_true_eq]
      exact hpermfst.mem_iff.mpr ha
    have hlnd : (l.map Prod.fst).Nodup := hpermfst.nodup_iff.mpr hnd
    have hproc : ∀ q ∈ players, q ∉ l.map Prod.fst → c q ≤ 0 := by
      intro q hq habs
      exact absurd (hpermfst.mem_iff.mpr hq) habs
    have hlay := sidePotsLoop_layers players c hnd l 0 hsorted hmeml hlnd hlow
      le_rfl (Or.inl rfl) hproc sp (by rw [hfsteq]; exact hsp)
    exact hlay

/-- C1 witness: contributions A=100 (all-in, in hand), B=50 (active): the
layers are (100, both) and (50, A only), summing to the 150 contributed. -/
theorem claim_C1_witness :
    (potC1ex.contributions ≠ [] ∧ ([pC1C, pC1B] : List PlayerState).Nodup ∧
      (∀ p ∈ ([pC1C, pC1B] : List PlayerState),
        (lookupContribution potC1ex.contributions p.name).isSome = true) ∧
      (∀ p ∈ ([pC1C, pC1B] : List PlayerState), 0 ≤ contribOf potC1ex.contributions p) ∧
      (∃ q ∈ ([pC1C, pC1B] : List PlayerState), q.isInHand = true ∧
        ∀ p ∈ ([pC1C, pC1B] : List PlayerState),
          contribOf potC1ex.contributions p ≤ contribOf potC1ex.contributions q)) ∧
    ((potC1ex.createSidePots [pC1C, pC1B]).sidePots.map (fun sp => sp.amount)).sum
      = ([pC1C, pC1B].map (fun p => contribOf potC1ex.contributions p)).sum := by
  refine ⟨⟨by decide, by decide, by decide, by decide, by decide⟩, ?_⟩
  exact (claim_C1_side_pot_partition potC1ex [pC1C, pC1B] (by decide) (by decide)
    (by decide) (by decide)).1 (by decide)


/-! ### C4: rejected requests -/

lemma moveToNext_eq (g : Game) :
    ∃ k, g.moveToNextActivePlayer = { g with currentPlayerIndex := k } := by
  simp only [Game.moveToNextActivePlayer]
  split_ifs with h
  · exact ⟨g.currentPlayerIndex, rfl⟩
  · cases hf : (List.range' 1 g.players.length).find?
        (fun k => g.activeIndices.contains ((g.currentPlayerIndex + k) % g.players.length)) with
    | none => exact ⟨g.activeIndices.getD 0 0, rfl⟩
    | some k => exact ⟨(g.currentPlayerIndex + k) % g.players.length, rfl⟩

lemma getCurrentPlayer_fst (g : Game) :
    ∃ k, (g.getCurrentPlayer).1 = { g with currentPlayerIndex := k } := by
  obtain ⟨k0, hk0⟩ := moveToNext_eq g
  simp only [Game.getCurrentPlayer]
  split_ifs with h1 h2 h3
  · exact ⟨g.currentPlayerIndex, rfl⟩
  · exact ⟨k0, by rw [hk0]⟩
  · exact ⟨k0, by rw [hk0]⟩
  · exact ⟨g.currentPlayerIndex, rfl⟩

lemma afterAction_snd (g : Game) : (g.afterAction).2 = true := by
  simp only [Game.afterAction]
  split_ifs <;> rfl

/-- C4 counterexample: with the actor index parked on a folded seat, a
request from the wrong seat is rejected, yet `get_current_player` has
already advanced the actor index — the rejected request mutated state. -/
theorem claim_C4_counterexample :
    (gC4ex.playerAction 2 PAction.fold 0).2 = false ∧
    (gC4ex.playerAction 2 PAction.fold 0).1.currentPlayerIndex ≠ gC4ex.currentPlayerIndex := by
  decide

/-- C4 (amended): a rejected action request (wrong actor, action not in
the legal set, or raise below the minimum) leaves every part of the game
state unchanged except that the current-actor index may have been
normalised to the next seat able to act by `get_current_player`. -/
theorem claim_C4_reject_no_mutation (g : Game) (i : Nat) (a : PAction) (amount : Int)
    (hfail : (g.playerAction i a amount).2 = false) :
    ∃ k, (g.playerAction i a amount).1 = { g with currentPlayerIndex := k } ∧
      (g.playerAction i a amount).1.phase = g.phase ∧
      (g.playerAction i a amount).1.players = g.players ∧
      (g.playerAction i a amount).1.pot = g.pot ∧
      (g.playerAction i a amount).1.currentBet = g.currentBet ∧
      (g.playerAction i a amount).1.minRaise = g.minRaise ∧
      (g.playerAction i a amount).1.lastRaiserIndex = g.lastRaiserIndex ∧
      (g.playerAction i a amount).1.communityCards = g.communityCards ∧
      (g.playerAction i a amount).1.deck = g.deck := by
  have hmain : ∃ k, (g.playerAction i a amount).1 = { g with currentPlayerIndex := k } := by
    obtain ⟨k0, hk0⟩ := getCurrentPlayer_fst g
    simp only [Game.playerAction] at hfail ⊢
    by_cases h1 : (g.players.getD i default).canAct = true
    · rw [if_neg (by simpa using h1)] at hfail ⊢
      rcases hg : (g.getCurrentPlayer).2 with _ | j
      · exact ⟨k0, hk0⟩
      · rw [hg] at hfail
        simp only at hfail ⊢
        by_cases hij : i ≠ j
        · rw [if_pos hij] at hfail ⊢
          exact ⟨k0, hk0⟩
        · rw [if_neg hij] at hfail ⊢
          by_cases hval : ((g.getCurrentPlayer).1.getValidActions
              (g.players.getD i default)).contains a = true
          · rw [if_neg (by simpa using hval)] at hfail ⊢
            cases a with
            | fold =>
              simp only at hfail
              rw [afterAction_snd] at hfail
              exact absurd hfail (by simp)
            | check =>
              simp only at hfail ⊢
              by_cases hcb : (g.players.getD i default).currentBet ≠
                  (g.getCurrentPlayer).1.currentBet
              · rw [if_pos hcb] at hfail ⊢
                exact ⟨k0, hk0⟩
              · rw [if_neg hcb] at hfail
                rw [afterAction_snd] at hfail
                exact absurd hfail (by simp)
            | call =>
              simp only at hfail
              rw [afterAction_snd] at hfail
              exact absurd hfail (by simp)
            | raise =>
              simp only at hfail ⊢
              by_cases hamt : amount < (g.getCurrentPlayer).1.currentBet +
                  (g.getCurrentPlayer).1.minRaise
              · rw [if_pos hamt] at hfail ⊢
                exact ⟨k0, hk0⟩
              · rw [if_neg hamt] at hfail
                rw [afterAction_snd] at hfail
                exact absurd hfail (by simp)
            | allIn =>
              simp only at hfail
              rw [afterAction_snd] at hfail
              exact absurd hfail (by simp)
          · rw [if_pos (by simpa using hval)] at hfail ⊢
            exact ⟨k0, hk0⟩
    · rw [if_pos (by simpa using h1)] at hfail ⊢
      exact ⟨g.currentPlayerIndex, rfl⟩
  obtain ⟨k, hk⟩ := hmain
  exact ⟨k, hk, by rw [hk], by rw [hk], by rw [hk], by rw [hk], by rw [hk], by rw [hk],
    by rw [hk], by rw [hk]⟩

/-- C4 witness: the amended statement applied to the concrete rejected
request of the counterexample state. -/
theorem claim_C4_witness :
    (gC4ex.playerAction 2 PAction.fold 0).2 = false ∧
    ∃ k, (gC4ex.playerAction 2 PAction.fold 0).1 = { gC4ex with currentPlayerIndex := k } ∧
      (gC4ex.playerAction 2 PAction.fold 0).1.phase = gC4ex.phase ∧
      (gC4ex.playerAction 2 PAction.fold 0).1.players = gC4ex.players ∧
      (gC4ex.playerAction 2 PAction.fold 0).1.pot = gC4ex.pot ∧
      (gC4ex.playerAction 2 PAction.fold 0).1.currentBet = gC4ex.currentBet ∧
      (gC4ex.playerAction 2 PAction.fold 0).1.minRaise = gC4ex.minRaise ∧
      (gC4ex.playerAction 2 PAction.fold 0).1.lastRaiserIndex = gC4ex.lastRaiserIndex ∧
      (gC4ex.playerAction 2 PAction.fold 0).1.communityCards = gC4ex.communityCards ∧
      (gC4ex.playerAction 2 PAction.fold 0).1.deck = gC4ex.deck :=
  ⟨by decide, claim_C4_reject_no_mutation gC4ex 2 PAction.fold 0 (by decide)⟩

/-! ### C5: early hand termination -/

lemma getD_set_self_PS (l : List PlayerState) (n : Nat) (a : PlayerState)
    (h : n < l.length) : (l.set n a).getD n default = a := by
  rw [List.getD_eq_getElem?_getD, List.getElem?_set_self (by simpa using h)]
  rfl

lemma getD_set_ne_PS (l : List PlayerState) {n m : Nat} (a : PlayerState)
    (h : n ≠ m) : (l.set n a).getD m default = l.getD m default := by
  rw [List.getD_eq_getElem?_getD, List.getElem?_set_ne h, ← List.getD_eq_getElem?_getD]

lemma getD_mem_PS (l : List PlayerState) (n : Nat) (h : n < l.length) :
    l.getD n default ∈ l := by
  rw [List.getD_eq_getElem?_getD, List.getElem?_eq_getElem h]
  exact List.getElem_mem _

lemma winChips_isInHand (p : PlayerState) (a : Int) :
    (p.winChips a).isInHand = p.isInHand := rfl

lemma winChips_chips (p : PlayerState) (a : Int) :
    (p.winChips a).chips = p.chips + a := rfl

lemma fold_chips (p : PlayerState) : p.fold.chips = p.chips := by
  simp only [PlayerState.fold]
  split_ifs <;> rfl

lemma call_chips_eq (p : PlayerState) (a : Int) :
    (p.call a).1.chips = p.chips - (p.call a).2 := by
  simp only [PlayerState.call]
  split_ifs <;> (try simp) <;> omega

lemma raiseBet_chips_eq (p : PlayerState) (a : Int) :
    (p.raiseBet a).1.chips = p.chips - (p.raiseBet a).2 := by
  simp only [PlayerState.raiseBet]
  split_ifs <;> (try simp) <;> omega

lemma allInMove_chips_eq (p : PlayerState) :
    p.allInMove.1.chips = p.chips - p.allInMove.2 := by
  simp only [PlayerState.allInMove]
  split_ifs <;> (try simp) <;> omega

lemma call_isInHand (p : PlayerState) (a : Int) (h : p.status = PlayerStatus.active) :
    (p.call a).1.isInHand = true := by
  simp only [PlayerState.call]
  split_ifs <;> simp [PlayerState.isInHand, h]

lemma raiseBet_isInHand (p : PlayerState) (a : Int) (h : p.status = PlayerStatus.active) :
    (p.raiseBet a).1.isInHand = true := by
  simp only [PlayerState.raiseBet]
  split_ifs <;> simp [PlayerState.isInHand, h]

lemma allInMove_isInHand (p : PlayerState) (h : p.status = PlayerStatus.active) :
    p.allInMove.1.isInHand = true := by
  simp only [PlayerState.allInMove]
  split_ifs <;> simp [PlayerState.isInHand, h]

lemma canAct_active {p : PlayerState} (h : p.canAct = true) :
    p.status = PlayerStatus.active := by
  simpa [PlayerState.canAct] using h

lemma canAct_lt_length (g : Game) (i : Nat)
    (h : (g.players.getD i default).canAct = true) : i < g.players.length := by
  by_contra hge
  rw [List.getD_eq_default _ _ (by omega)] at h
  exact absurd h (by decide)

lemma filter_length_set (l : List PlayerState) :
    ∀ (k : Nat) (a : PlayerState), a.isInHand = (l.getD k default).isInHand →
    ((l.set k a).filter (fun p => p.isInHand)).length
      = (l.filter (fun p => p.isInHand)).length := by
  induction l with
  | nil => intro k a _; rfl
  | cons x t ih =>
    intro k a hpres
    cases k with
    | zero =>
      simp only [List.set_cons_zero, List.getD_cons_zero] at hpres ⊢
      by_cases hx : x.isInHand = true
      · rw [List.filter_cons_of_pos (by rw [hpres]; exact hx),
          List.filter_cons_of_pos hx]
        simp
      · rw [List.filter_cons_of_neg (by rw [hpres]; simpa using hx),
          List.filter_cons_of_neg (by simpa using hx)]
    | succ k2 =>
      simp only [List.set_cons_succ, List.getD_cons_succ] at hpres ⊢
      by_cases hx : x.isInHand = true
      · rw [List.filter_cons_of_pos hx, List.filter_cons_of_pos hx]
        simp only [List.length_cons]
        rw [ih k2 a hpres]
      · rw [List.filter_cons_of_neg (by simpa using hx),
          List.filter_cons_of_neg (by simpa using hx)]
        exact ih k2 a hpres

lemma filter_length_map_le (f : PlayerState → PlayerState)
    (h : ∀ p, p.isInHand = true → (f p).isInHand = true) (l : List PlayerState) :
    (l.filter (fun p => p.isInHand)).length
      ≤ ((l.map f).filter (fun p => p.isInHand)).length := by
  induction l with
  | nil => simp
  | cons x t ih =>
    simp only [List.map_cons]
    by_cases hx : x.isInHand = true
    · rw [List.filter_cons_of_pos hx, List.filter_cons_of_pos (h x hx)]
      simpa using ih
    · rw [List.filter_cons_of_neg (by simpa using hx)]
      by_cases hfx : (f x).isInHand = true
      · rw [List.filter_cons_of_pos hfx]
        exact le_trans ih (by simp)
      · rw [List.filter_cons_of_neg (by simpa using hfx)]
        exact ih

lemma newBettingRound_isInHand (p : PlayerState) (h : p.isInHand = true) :
    (p.newBettingRound).isInHand = true := by
  simp only [PlayerState.newBettingRound]
  simp only [PlayerState.isInHand, Bool.or_eq_true, beq_iff_eq] at h
  split_ifs <;> simp [PlayerState.isInHand] <;> tauto

lemma mem_inHand_filter_pos {l : List PlayerState} {k : Nat} (hk : k < l.length)
    (hin : (l.getD k default).isInHand = true) :
    1 ≤ (l.filter (fun p => p.isInHand)).length := by
  have hmem : l.getD k default ∈ l.filter (fun p => p.isInHand) :=
    List.mem_filter.mpr ⟨getD_mem_PS l k hk, hin⟩
  cases hfe : l.filter (fun p => p.isInHand) with
  | nil => rw [hfe] at hmem; exact absurd hmem (by simp)
  | cons _ _ => simp

lemma filter_single_index :
    ∀ (l : List PlayerState), (l.filter (fun p => p.isInHand)).length = 1 →
    ∀ k, k < l.length → (l.getD k default).isInHand = true →
      k = l.findIdx (fun p => p.isInHand) := by
  intro l
  induction l with
  | nil => intro _ k hk _; simp at hk
  | cons x t ih =>
    intro hone k hk hin
    by_cases hx : x.isInHand = true
    · have hfe : t.filter (fun p => p.isInHand) = [] := by
        rw [List.filter_cons_of_pos hx, List.length_cons] at hone
        have h0 : (List.filter PlayerState.isInHand t).length = 0 := by omega
        exact List.length_eq_zero.mp h0
      have hfind : (x :: t).findIdx (fun p => p.isInHand) = 0 := by
        rw [List.findIdx_cons, hx]
        rfl
      cases k with
      | zero => rw [hfind]
      | succ k2 =>
        simp only [List.getD_cons_succ] at hin
        have hk2 : k2 < t.length := by simpa using hk
        have hmem : t.getD k2 default ∈ t := getD_mem_PS t k2 hk2
        have hnot := List.filter_eq_nil_iff.mp hfe _ hmem
        exact absurd hin (by simpa using hnot)
    · have hone2 : (t.filter (fun p => p.isInHand)).length = 1 := by
        rw [List.filter_cons_of_neg (by simpa using hx)] at hone
        exact hone
      have hfind : (x :: t).findIdx (fun p => p.isInHand)
          = t.findIdx (fun p => p.isInHand) + 1 := by
        rw [List.findIdx_cons]
        rcases hx2 : x.isInHand with _ | _
        · rfl
        · exact absurd hx2 hx
      cases k with
      | zero =>
        simp only [List.getD_cons_zero] at hin
        exact absurd hin hx
      | succ k2 =>
        simp only [List.getD_cons_succ] at hin
        have hk2 : k2 < t.length := by simpa using hk
        rw [hfind, ih hone2 k2 hk2 hin]

lemma handleSingleWinner_spec (g : Game)
    (hle : (g.players.filter (fun p => p.isInHand)).length ≤ 1) :
    (g.handleSingleWinner).phase = GamePhase.handComplete ∧
    (g.handleSingleWinner).communityCards = g.communityCards ∧
    (g.handleSingleWinner).deck = g.deck ∧
    (g.handleSingleWinner).players.length = g.players.length ∧
    (∀ k, ((g.handleSingleWinner).players.getD k default).isInHand
        = (g.players.getD k default).isInHand) ∧
    (∀ k, k < g.players.length →
      ((g.handleSingleWinner).players.getD k default).isInHand = true →
      ((g.handleSingleWinner).players.getD k default).chips
        = (g.players.getD k default).chips + g.pot.mainPot) := by
  by_cases hone : (g.players.filter (fun p => p.isInHand)).length = 1
  · have hfne : ∃ x ∈ g.players, x.isInHand = true := by
      cases hfe : g.players.filter (fun p => p.isInHand) with
      | nil => rw [hfe] at hone; simp at hone
      | cons y t =>
        have hy : y ∈ g.players.filter (fun p => p.isInHand) := by rw [hfe]; simp
        have := List.mem_filter.mp hy
        exact ⟨y, this.1, this.2⟩
    have hkw : g.players.findIdx (fun p => p.isInHand) < g.players.length :=
      List.findIdx_lt_length.mpr hfne
    have hres : g.handleSingleWinner =
        { g.updateAt (g.players.findIdx (fun p => p.isInHand))
            (fun p => p.winChips g.pot.mainPot) with phase := GamePhase.handComplete } := by
      simp only [Game.handleSingleWinner, hone, if_pos]
    rw [hres]
    refine ⟨rfl, rfl, rfl, by simp [Game.updateAt], ?_, ?_⟩
    · intro k
      simp only [Game.updateAt]
      by_cases hki : g.players.findIdx (fun p => p.isInHand) = k
      · rw [← hki, getD_set_self_PS _ _ _ hkw, winChips_isInHand]
      · rw [getD_set_ne_PS _ _ hki]
    · intro k hk hin
      simp only [Game.updateAt] at hin ⊢
      by_cases hki : g.players.findIdx (fun p => p.isInHand) = k
      · rw [← hki, getD_set_self_PS _ _ _ hkw, winChips_chips]
      · rw [getD_set_ne_PS _ _ hki] at hin
        have h2 := filter_single_index g.players hone k hk hin
        exact absurd h2.symm hki
  · have hzero : (g.players.filter (fun p => p.isInHand)).length = 0 := by omega
    have hres : g.handleSingleWinner = { g with phase := GamePhase.handComplete } := by
      simp only [Game.handleSingleWinner, hone, if_neg, if_false]
    rw [hres]
    refine ⟨rfl, rfl, rfl, rfl, fun k => rfl, ?_⟩
    intro k hk hin
    have := mem_inHand_filter_pos hk hin
    omega

lemma setFirst_eq (g : Game) :
    ∃ k, g.setFirstPlayerToAct = { g with currentPlayerIndex := k } := by
  simp only [Game.setFirstPlayerToAct]
  split_ifs with h1 h2 h3 h4 h5
  · exact ⟨g.currentPlayerIndex, rfl⟩
  · exact ⟨g.dealerPosition, rfl⟩
  · cases hf : (List.range' 1 (g.players.length - 1)).find?
        (fun i => g.activeIndices.contains ((g.getBigBlindPosition + i) % g.players.length)) with
    | none => exact ⟨g.currentPlayerIndex, rfl⟩
    | some i => exact ⟨(g.getBigBlindPosition + i) % g.players.length, rfl⟩
  · exact ⟨(g.dealerPosition + 1) % g.players.length, rfl⟩
  · exact ⟨g.dealerPosition, rfl⟩
  · cases hf : (List.range g.players.length).find?
        (fun i => g.activeIndices.contains ((g.getSmallBlindPosition + i) % g.players.length)) with
    | none => exact ⟨g.activeIndices.getD 0 0, rfl⟩
    | some i => exact ⟨(g.getSmallBlindPosition + i) % g.players.length, rfl⟩

lemma setFirst_players (g : Game) : (g.setFirstPlayerToAct).players = g.players := by
  obtain ⟨k, hk⟩ := setFirst_eq g
  rw [hk]

lemma updateAt_filter_count (g : Game) (k : Nat) (f : PlayerState → PlayerState)
    (hf : ∀ p, (f p).isInHand = p.isInHand) :
    ((g.updateAt k f).players.filter (fun p => p.isInHand)).length
      = (g.players.filter (fun p => p.isInHand)).length := by
  simp only [Game.updateAt]
  exact filter_length_set g.players k _ (hf _)

lemma foldl_winChips_count (per rem : Int) :
    ∀ (ws : List (Nat × Nat)) (gg : Game),
      (((ws.foldl (fun gg2 je => gg2.updateAt je.2
          (fun p => p.winChips (per + (if (je.1 : Int) < rem then 1 else 0)))) gg).players.filter
            (fun p => p.isInHand)).length)
        = ((gg.players.filter (fun p => p.isInHand)).length) := by
  intro ws
  induction ws with
  | nil => intro gg; rfl
  | cons e t ih =>
    intro gg
    rw [List.foldl_cons, ih]
    exact updateAt_filter_count gg e.2 _ (fun p => rfl)

lemma showdown_count (g : Game) :
    ((g.showdownResolve).players.filter (fun p => p.isInHand)).length
      = (g.players.filter (fun p => p.isInHand)).length := by
  simp only [Game.showdownResolve]
  by_cases h0 : g.inHandIndices.length = 0
  · rw [if_pos h0]
  · rw [if_neg h0]
    by_cases h1 : g.inHandIndices.length = 1
    · rw [if_pos h1]
      exact updateAt_filter_count g (g.inHandIndices.getD 0 0)
        (fun p => p.winChips g.pot.mainPot) (fun p => rfl)
    · rw [if_neg h1]
      split_ifs with hwe
      · rfl
      · exact foldl_winChips_count _ _ _ g

lemma showdown_phase (g : Game) :
    (g.showdownResolve).phase = GamePhase.handComplete := by
  simp only [Game.showdownResolve]
  split_ifs <;> rfl

lemma advance_count_ge (g : Game) :
    (g.players.filter (fun p => p.isInHand)).length
      ≤ ((g.advanceToNextPhase).players.filter (fun p => p.isInHand)).length := by
  have hstep1 : (g.players.filter (fun p => p.isInHand)).length ≤
      ((g.players.map PlayerState.newBettingRound).filter (fun p => p.isInHand)).length :=
    filter_length_map_le _ newBettingRound_isInHand _
  simp only [Game.advanceToNextPhase]
  rcases hph : g.phase with _ | _ | _ | _ | _ | _ | _
  · exact hstep1
  · rw [setFirst_players]
    exact hstep1
  · rw [setFirst_players]
    exact hstep1
  · rw [setFirst_players]
    exact hstep1
  · rw [showdown_phase]
    rw [showdown_count]
    exact hstep1
  · exact hstep1
  · exact hstep1

lemma afterAction_spec (g2 : Game)
    (hle : ((g2.afterAction).1.players.filter (fun p => p.isInHand)).length ≤ 1) :
    (g2.afterAction).1.phase = GamePhase.handComplete ∧
    (g2.afterAction).1.communityCards = g2.communityCards ∧
    (g2.afterAction).1.deck = g2.deck ∧
    (g2.afterAction).1.players.length = g2.players.length ∧
    (∀ k, ((g2.afterAction).1.players.getD k default).isInHand
        = (g2.players.getD k default).isInHand) ∧
    (∀ k, k < g2.players.length →
      ((g2.afterAction).1.players.getD k default).isInHand = true →
      ((g2.afterAction).1.players.getD k default).chips
        = (g2.players.getD k default).chips + g2.pot.mainPot) := by
  obtain ⟨k3, hk3⟩ := moveToNext_eq g2
  simp only [Game.afterAction, hk3] at hle ⊢
  by_cases hc1 : (g2.players.filter (fun p => p.isInHand)).length ≤ 1
  · rw [if_pos hc1] at hle ⊢
    have hs := handleSingleWinner_spec { g2 with currentPlayerIndex := k3 } hc1
    exact hs
  · rw [if_neg hc1] at hle ⊢
    by_cases hc2 : ({ g2 with currentPlayerIndex := k3 } : Game).isBettingRoundComplete = true
    · rw [if_pos hc2] at hle ⊢
      exfalso
      have hge := advance_count_ge { g2 with currentPlayerIndex := k3 }
      dsimp only at hge hle
      omega
    · rw [if_neg hc2] at hle ⊢
      exfalso
      dsimp only at hle
      omega

lemma addBet_mainPot (pot : Pot) (n : Nat) (a : Int) :
    (pot.addBet n a).mainPot = pot.mainPot + a := rfl

lemma afterAction_final (gAct g : Game) (i : Nat) (moved : Int)
    (hi : i < g.players.length)
    (hplen : gAct.players.length = g.players.length)
    (hcomm : gAct.communityCards = g.communityCards)
    (hdeck : gAct.deck = g.deck)
    (hpot : gAct.pot.mainPot = g.pot.mainPot + moved)
    (hchipsi : (gAct.players.getD i default).chips = (g.players.getD i default).chips - moved)
    (hothers : ∀ k, k ≠ i → gAct.players.getD k default = g.players.getD k default)
    (hactor : moved = 0 ∨ (gAct.players.getD i default).isInHand = true)
    (hle : ((gAct.afterAction).1.players.filter (fun p => p.isInHand)).length ≤ 1) :
    (gAct.afterAction).1.phase = GamePhase.handComplete ∧
    (gAct.afterAction).1.communityCards = g.communityCards ∧
    (gAct.afterAction).1.deck = g.deck ∧
    (∀ k, k < g.players.length →
      ((gAct.afterAction).1.players.getD k default).isInHand = true →
      ((gAct.afterAction).1.players.getD k default).chips
        = (g.players.getD k default).chips + g.pot.mainPot) := by
  obtain ⟨hphase, hcm, hdk, hlen, hpres, hchips⟩ := afterAction_spec gAct hle
  refine ⟨hphase, by rw [hcm, hcomm], by rw [hdk, hdeck], ?_⟩
  intro k hk hin
  have hk2 : k < gAct.players.length := by rw [hplen]; exact hk
  have hch := hchips k hk2 hin
  rcases hactor with hm0 | hinact
  · rw [hch, hpot, hm0]
    by_cases hki : k = i
    · rw [hki, hchipsi, hm0]
      ring
    · rw [hothers k hki]
      ring
  · by_cases hki : k = i
    · rw [hch, hpot, hki, hchipsi]
      ring
    · exfalso
      have hini : ((gAct.afterAction).1.players.getD i default).isInHand = true := by
        rw [hpres i]
        exact hinact
    -- two distinct in-hand seats in a result with at most one in-hand player
      have hlenres : (gAct.afterAction).1.players.length = g.players.length := by
        rw [hlen, hplen]
      have hkres : k < (gAct.afterAction).1.players.length := by rw [hlenres]; exact hk
      have hires : i < (gAct.afterAction).1.players.length := by rw [hlenres]; exact hi
      have hpos1 := mem_inHand_filter_pos hkres hin
      have hone : ((gAct.afterAction).1.players.filter (fun p => p.isInHand)).length = 1 := by
        omega
      have e1 := filter_single_index _ hone k hkres hin
      have e2 := filter_single_index _ hone i hires hini
      exact hki (e1.trans e2.symm)

/-- C5: after any successfully processed action, if at most one player
remains in hand, the phase becomes HandComplete, no further community
cards (or deck cards) are dealt, and any remaining in-hand player's stack
has grown by exactly the whole pot as it stood before the action (their
own contribution moved by the action included). -/
theorem claim_C5_early_termination (g : Game) (i : Nat) (a : PAction) (amount : Int)
    (hsucc : (g.playerAction i a amount).2 = true)
    (hle : ((g.playerAction i a amount).1.players.filter (fun p => p.isInHand)).length ≤ 1) :
    (g.playerAction i a amount).1.phase = GamePhase.handComplete ∧
    (g.playerAction i a amount).1.communityCards = g.communityCards ∧
    (g.playerAction i a amount).1.deck = g.deck ∧
    (∀ k, k < g.players.length →
      ((g.playerAction i a amount).1.players.getD k default).isInHand = true →
      ((g.playerAction i a amount).1.players.getD k default).chips
        = (g.players.getD k default).chips + g.pot.mainPot) := by
  obtain ⟨k0, hk0⟩ := getCurrentPlayer_fst g
  simp only [Game.playerAction] at hsucc hle ⊢
  by_cases h1 : (g.players.getD i default).canAct = true
  · rw [if_neg (by simpa using h1)] at hsucc hle ⊢
    have hi : i < g.players.length := canAct_lt_length g i h1
    have hactive : (g.players.getD i default).status = PlayerStatus.active := canAct_active h1
    rcases hg : (g.getCurrentPlayer).2 with _ | j
    · rw [hg] at hsucc
      exact absurd hsucc (by simp)
    · rw [hg] at hsucc hle
      simp only at hsucc hle ⊢
      by_cases hij : i ≠ j
      · rw [if_pos hij] at hsucc
        exact absurd hsucc (by simp)
      · rw [if_neg hij] at hsucc hle ⊢
        by_cases hval : ((g.getCurrentPlayer).1.getValidActions
            (g.players.getD i default)).contains a = true
        · rw [if_neg (by simpa using hval)] at hsucc hle ⊢
          rw [hk0] at hsucc hle ⊢
          cases a with
          | fold =>
            simp only at hsucc hle ⊢
            exact afterAction_final _ g i 0 hi
              (by simp [Game.updateAt])
              rfl rfl
              (by simp [Game.updateAt])
              (by simp only [Game.updateAt]
                  rw [getD_set_self_PS _ _ _ hi, fold_chips]
                  ring)
              (by intro k hki
                  simp only [Game.updateAt]
                  exact getD_set_ne_PS _ _ (fun h => hki h.symm))
              (Or.inl rfl)
              hle
          | check =>
            simp only at hsucc hle ⊢
            by_cases hcb : (g.players.getD i default).currentBet ≠
                ({ g with currentPlayerIndex := k0 } : Game).currentBet
            · rw [if_pos hcb] at hsucc
              exact absurd hsucc (by simp)
            · rw [if_neg hcb] at hsucc hle ⊢
              exact afterAction_final _ g i 0 hi
                (by simp [Game.updateAt])
                rfl rfl
                (by simp [Game.updateAt])
                (by simp only [Game.updateAt]
                    rw [getD_set_self_PS _ _ _ hi]
                    ring)
                (by intro k hki
                    simp only [Game.updateAt]
                    exact getD_set_ne_PS _ _ (fun h => hki h.symm))
                (Or.inl rfl)
                hle
          | call =>
            simp only at hsucc hle ⊢
            exact afterAction_final _ g i
              ((g.players.getD i default).call
                ({ g with currentPlayerIndex := k0 } : Game).currentBet).2 hi
              (by simp)
              rfl rfl
              (addBet_mainPot _ _ _)
              (by rw [getD_set_self_PS _ _ _ hi, call_chips_eq])
              (by intro k hki
                  exact getD_set_ne_PS _ _ (fun h => hki h.symm))
              (Or.inr (by rw [getD_set_self_PS _ _ _ hi]
                          exact call_isInHand _ _ hactive))
              hle
          | raise =>
            simp only at hsucc hle ⊢
            by_cases hamt : amount < ({ g with currentPlayerIndex := k0 } : Game).currentBet +
                ({ g with currentPlayerIndex := k0 } : Game).minRaise
            · rw [if_pos hamt] at hsucc
              exact absurd hsucc (by simp)
            · rw [if_neg hamt] at hsucc hle ⊢
              exact afterAction_final _ g i
                ((g.players.getD i default).raiseBet amount).2 hi
                (by simp)
                rfl rfl
                (addBet_mainPot _ _ _)
                (by rw [getD_set_self_PS _ _ _ hi, raiseBet_chips_eq])
                (by intro k hki
                    exact getD_set_ne_PS _ _ (fun h => hki h.symm))
                (Or.inr (by rw [getD_set_self_PS _ _ _ hi]
                            exact raiseBet_isInHand _ _ hactive))
                hle
          | allIn =>
            simp only at hsucc hle ⊢
            by_cases hup : ({ g with currentPlayerIndex := k0 } : Game).currentBet <
                (g.players.getD i default).allInMove.1.currentBet
            · rw [if_pos hup] at hsucc hle ⊢
              exact afterAction_final _ g i
                (g.players.getD i default).allInMove.2 hi
                (by simp)
                rfl rfl
                (addBet_mainPot _ _ _)
                (by rw [getD_set_self_PS _ _ _ hi, allInMove_chips_eq])
                (by intro k hki
                    exact getD_set_ne_PS _ _ (fun h => hki h.symm))
                (Or.inr (by rw [getD_set_self_PS _ _ _ hi]
                            exact allInMove_isInHand _ hactive))
                hle
            · rw [if_neg hup] at hsucc hle ⊢
              exact afterAction_final _ g i
                (g.players.getD i default).allInMove.2 hi
                (by simp)
                rfl rfl
                (addBet_mainPot _ _ _)
                (by rw [getD_set_self_PS _ _ _ hi, allInMove_chips_eq])
                (by intro k hki
                    exact getD_set_ne_PS _ _ (fun h => hki h.symm))
                (Or.inr (by rw [getD_set_self_PS _ _ _ hi]
                            exact allInMove_isInHand _ hactive))
                hle
        · rw [if_pos (by simpa using hval)] at hsucc
          exact absurd hsucc (by simp)
  · rw [if_pos (by simpa using h1)] at hsucc
    exact absurd hsucc (by simp)

/-- Witness for C5: in the heads-up state gC5ex, seat 0 folding to the raise is
accepted, leaves a single player in hand, and the claim's conclusion holds. -/
theorem claim_C5_witness :
    (gC5ex.playerAction 0 PAction.fold 0).2 = true ∧
    ((gC5ex.playerAction 0 PAction.fold 0).1.players.filter (fun p => p.isInHand)).length ≤ 1 ∧
    ((gC5ex.playerAction 0 PAction.fold 0).1.phase = GamePhase.handComplete ∧
     (gC5ex.playerAction 0 PAction.fold 0).1.communityCards = gC5ex.communityCards ∧
     (gC5ex.playerAction 0 PAction.fold 0).1.deck = gC5ex.deck ∧
     (∀ k, k < gC5ex.players.length →
       ((gC5ex.playerAction 0 PAction.fold 0).1.players.getD k default).isInHand = true →
       ((gC5ex.playerAction 0 PAction.fold 0).1.players.getD k default).chips
         = (gC5ex.players.getD k default).chips + gC5ex.pot.mainPot)) :=
  ⟨by decide, by decide,
    claim_C5_early_termination gC5ex 0 PAction.fold 0 (by decide) (by decide)⟩

end Holdem
